import Mathlib

/-!
Verification of the unzip-notion link/name repair and ordering engine.

Byte strings (Python `bytes`) are modelled as `List Nat`, one entry per byte.
Each definition below is a shallow embedding of the corresponding Python
function from `unzip-notion.py`, `weights.py` or `utils.py`; regular
expressions are embedded by their operational matching semantics
(leftmost scan, greedy subpatterns with the backtracking behaviour they
have on these concrete patterns).
-/

namespace UnzipNotion

/-- Bytes of an ASCII string literal (code point = byte value). -/
def bs (s : String) : List Nat := s.data.map Char.toNat

/-- ASCII lowercase letter or digit test used by the `[0-9a-z]` character
class of `FILE_HASH_SUFFIX_PATTERN` and `MARKDOWN_HASH_SUFFIX_PATTERN`. -/
def is09az (b : Nat) : Bool := (48 ≤ b && b ≤ 57) || (97 ≤ b && b ≤ 122)

/-- Python `bytes.removeprefix`. -/
def dropPre (p l : List Nat) : List Nat :=
  if p.isPrefixOf l then l.drop p.length else l

/-- Python `bytes.removesuffix`. -/
def dropSuf (s l : List Nat) : List Nat :=
  if s.isSuffixOf l then l.take (l.length - s.length) else l

/-- Python `bytes.split(sep)` for a one-byte separator: splits at every
occurrence, keeping empty pieces (`b"".split` gives `[b""]`). -/
def splitOnByte (c : Nat) : List Nat → List (List Nat)
  | [] => [[]]
  | a :: l =>
    if a = c then [] :: splitOnByte c l
    else
      match splitOnByte c l with
      | [] => [[a]]
      | w :: ws => (a :: w) :: ws

/-- Scan worker for `replaceAll`: `skip` counts bytes still to swallow from
a replacement already emitted (keeps the recursion structural). -/
def replaceAllGo (p r : List Nat) : List Nat → Nat → List Nat
  | [], _ => []
  | _ :: l, skip + 1 => replaceAllGo p r l skip
  | a :: l, 0 =>
    if p.isPrefixOf (a :: l) then r ++ replaceAllGo p r l (p.length - 1)
    else a :: replaceAllGo p r l 0

/-- Python `bytes.replace(p, r)` for a non-empty pattern `p`: single
left-to-right scan replacing non-overlapping occurrences. -/
def replaceAll (p r : List Nat) (l : List Nat) : List Nat := replaceAllGo p r l 0

/-- Python `bytes.lower()`: ASCII uppercase folded to lowercase. -/
def lowerB (l : List Nat) : List Nat :=
  l.map (fun b => if 65 ≤ b && b ≤ 90 then b + 32 else b)

/-- Does `MARKDOWN_HASH_SUFFIX_PATTERN = %20[0-9a-z]{32}` match at the head
of the list? -/
def hashTokHere (l : List Nat) : Bool :=
  (bs "%20").isPrefixOf l && 35 ≤ l.length && ((l.drop 3).take 32).all is09az

/-- Scan worker for `subHashTok` (same skip-counter scheme as
`replaceAllGo`). -/
def subHashTokGo : List Nat → Nat → List Nat
  | [], _ => []
  | _ :: l, skip + 1 => subHashTokGo l skip
  | a :: l, 0 =>
    if hashTokHere (a :: l) then subHashTokGo l 34
    else a :: subHashTokGo l 0

/-- `re.sub(MARKDOWN_HASH_SUFFIX_PATTERN, b"", url_part)`: one left-to-right
scan deleting each `%20<32 chars of [0-9a-z]>` token. -/
def subHashTok (l : List Nat) : List Nat := subHashTokGo l 0

/-- `repair_url_part` from unzip-notion.py: strip embedded hash tokens,
lowercase, apply the fixed substitution list, then split on spaces and
join the words that are not `b"-"` with dashes. -/
def repair_url_part (url_part : List Nat) : List Nat :=
  let u1 := subHashTok url_part
  let u2 := lowerB u1
  let u3 := replaceAll (bs "%20") (bs " ") u2
  let u4 := replaceAll (bs "e%cc%81") (bs "e") u3
  let u5 := replaceAll (bs "%e2%80%99") (bs "_") u4
  let u6 := replaceAll (bs "&") (bs "et") u5
  let u7 := replaceAll (bs ",") (bs "_") u6
  List.intercalate (bs "-") ((splitOnByte 32 u7).filter (fun w => w ≠ bs "-"))

/-! ## Name Repair (`repair_name`) -/

/-- Does a suffix of the name match `( [0-9a-z]{32})(\.md)?$` in full?
Returns `some true` when the optional `.md` group is present,
`some false` when the space + 32 character token alone reaches the end. -/
def hashSufAt (l : List Nat) : Option Bool :=
  if l.length = 36 ∧ l.head? = some 32 ∧ ((l.drop 1).take 32).all is09az
      ∧ l.drop 33 = bs ".md" then
    some true
  else if l.length = 33 ∧ l.head? = some 32 ∧ (l.drop 1).all is09az then
    some false
  else
    none

/-- Locate the match of `FILE_HASH_SUFFIX_PATTERN = (.*)( [0-9a-z]{32})(\.md)?$`
with the greedy `(.*)` group as long as possible: returns the group-1 bytes
and whether group 3 (`.md`) is present. -/
def findHashSuf : List Nat → Option (List Nat × Bool)
  | [] => none
  | a :: t =>
    match findHashSuf t with
    | some (p, m) => some (a :: p, m)
    | none =>
      match hashSufAt (a :: t) with
      | some m => some ([], m)
      | none => none

/-- The replace chain of `repair_name`: fix the two mis-encoded
e-acute byte sequences to `\xc3\xa9`, fold e-acute to `e`, c-cedilla to
`c`, and the right single quotation mark to `_`. -/
def accentFold (name : List Nat) : List Nat :=
  let n1 := replaceAll [101, 166, 252] [195, 169] name
  let n2 := replaceAll [101, 204, 129] [195, 169] n1
  let n3 := replaceAll [195, 169] [101] n2
  let n4 := replaceAll [195, 167] [99] n3
  replaceAll [226, 128, 153] [95] n4

/-- `repair_name` from unzip-notion.py: the accent replace chain, then
`re.sub` of the trailing hash token (keeping the `.md` group if present). -/
def repair_name (name : List Nat) : List Nat :=
  match findHashSuf (accentFold name) with
  | some (p, m) => p ++ (if m then bs ".md" else [])
  | none => accentFold name

/-! ## URL parsing (model of `urllib.parse.urlparse` scheme/netloc) -/

/-- ASCII letter. -/
def isAlphaB (b : Nat) : Bool := (65 ≤ b && b ≤ 90) || (97 ≤ b && b ≤ 122)

/-- Characters allowed in a URL scheme (`scheme_chars` of urllib):
letters, digits, `+`, `-`, `.`. -/
def isSchemeChar (b : Nat) : Bool :=
  isAlphaB b || (48 ≤ b && b ≤ 57) || b = 43 || b = 45 || b = 46

/-- First byte is an ASCII letter. -/
def headAlpha : List Nat → Bool
  | [] => false
  | b :: _ => isAlphaB b

/-- A C0 control byte or the space byte (`_WHATWG_C0_CONTROL_OR_SPACE`). -/
def isC0OrSpace (b : Nat) : Bool := b ≤ 32

/-- A byte CPython's `urlsplit` deletes from the URL before parsing
(`_UNSAFE_URL_BYTES_TO_REMOVE = tab, CR, LF`; bpo-43882). -/
def isUnsafeUrlByte (b : Nat) : Bool := b = 9 || b = 13 || b = 10

/-- The preprocessing `urlsplit` applies after the ASCII decode: strip
leading C0-control/space bytes, then remove every tab, CR and LF. -/
def urlPrep (url : List Nat) : List Nat :=
  (url.dropWhile isC0OrSpace).filter (fun b => !isUnsafeUrlByte b)

/-- CPython `urlsplit` scheme recognition (on the preprocessed URL): a `:`
at position `i > 0`, a leading ASCII letter, and scheme characters up to
the colon give `(lowercased scheme, rest after the colon)`; otherwise no
scheme. -/
def schemeSplit (url : List Nat) : List Nat × List Nat :=
  match url.findIdx? (fun b => b = 58) with
  | none => ([], url)
  | some i =>
    if 0 < i ∧ (url.take i).all isSchemeChar ∧ headAlpha url then
      (lowerB (url.take i), url.drop (i + 1))
    else
      ([], url)

/-- Scheme component of `urllib.parse.urlparse(url)` (preprocessing
included). -/
def urlScheme (url : List Nat) : List Nat := (schemeSplit (urlPrep url)).1

/-- Netloc (authority) component of `urllib.parse.urlparse(url)`
(preprocessing included): present only when the remainder after the scheme
starts with `//`; extends to the next `/`, `?` or `#`. -/
def urlNetloc (url : List Nat) : List Nat :=
  let r := (schemeSplit (urlPrep url)).2
  if (bs "//").isPrefixOf r then
    (r.drop 2).takeWhile (fun b => b ≠ 47 && b ≠ 63 && b ≠ 35)
  else
    []

/-- `urllib.parse.urlparse` on bytes first decodes them as ASCII; a
non-ASCII byte raises `UnicodeDecodeError`, which `repair_link` catches and
treats as "not absolute". -/
def urlParseOk (url : List Nat) : Bool := url.all (fun b => b < 128)

/-- The condition under which `repair_link` returns the matched link
unchanged: the URL decodes and has both a scheme and an authority. -/
def isAbsoluteUrl (url : List Nat) : Bool :=
  urlParseOk url && urlScheme url ≠ [] && urlNetloc url ≠ []

/-! ## Link Repair (`repair_link`) -/

/-- `repair_link` from unzip-notion.py, on the two captures of a link match
(`group(0)` of both link patterns is exactly `[name](url)`).
`old_link_pfx` is the prefix to drop, `parent_link_pfxs` the prefixes that
force a `../`, `url_pfx` extra segments to prepend, `md_link` whether a
trailing `.md` is stripped first. The `ValueError` that CPython's urlsplit
raises on a netloc containing `[` or `]` (unbalanced brackets, or a
balanced pair whose content is not a valid bracketed host) is not
modelled; theorems that depend on the parse outcome carry
no-bracket-in-netloc hypotheses. -/
def repair_link (name url old_link_pfx : List Nat)
    (parent_link_pfxs url_pfx : List (List Nat)) (md_link : Bool) : List Nat :=
  if isAbsoluteUrl url then
    bs "[" ++ name ++ bs "](" ++ url ++ bs ")"
  else
    let url1 := if md_link then dropSuf (bs ".md") url else url
    let url_parts := splitOnByte 47 (dropPre (bs "/") url1)
    let parts := (url_pfx ++ url_parts).map repair_url_part
    let parts2 :=
      match parts with
      | [] => []
      | p0 :: rest =>
        if p0 = old_link_pfx then rest
        else if p0 = bs ".." ∨ p0 ∈ parent_link_pfxs then bs ".." :: p0 :: rest
        else p0 :: rest
    bs "[" ++ name ++ bs "](" ++ List.intercalate (bs "/") parts2 ++ bs ")"

/-! ## Regex matchers for the three content patterns

Each matcher answers: does the pattern match at the head of the list?  It
returns the captures and the match length.  The scanners below then
implement `finditer` + `replace_match` (try at each position, continue
after a match) — the running-offset bookkeeping of `utils.replace_match`
amounts exactly to splicing each replacement in place. -/

/-- Match of `MARKDOWN_MD_LINK_PATTERN = \[([^]]*)]\(([^)]*\.md)\)` at the
head: `(name, url, length)`. -/
def mdMatchAt : List Nat → Option (List Nat × List Nat × Nat)
  | [] => none
  | a :: t =>
    if a = 91 then
      let name := t.takeWhile (fun b => b ≠ 93)
      let t1 := t.drop name.length
      if (bs "](").isPrefixOf t1 then
        let r2 := t1.drop 2
        let url := r2.takeWhile (fun b => b ≠ 41)
        if (r2.drop url.length).head? = some 41 ∧ (bs ".md").isSuffixOf url then
          some (name, url, name.length + url.length + 4)
        else none
      else none
    else none

/-- Match of `MARKDOWN_RESOURCE_LINK_PATTERN =
\[([^]]*)]\(([^)]*\.(?!md)[^.\n)]+)\)` at the head.  The url runs to the
first `)`, must contain a `.`, and the part after the last `.` must be
non-empty, newline-free and not start with `md`. -/
def resMatchAt : List Nat → Option (List Nat × List Nat × Nat)
  | [] => none
  | a :: t =>
    if a = 91 then
      let name := t.takeWhile (fun b => b ≠ 93)
      let t1 := t.drop name.length
      if (bs "](").isPrefixOf t1 then
        let r2 := t1.drop 2
        let url := r2.takeWhile (fun b => b ≠ 41)
        let ext := (url.reverse.takeWhile (fun b => b ≠ 46)).reverse
        if (r2.drop url.length).head? = some 41 ∧ 46 ∈ url ∧ ext ≠ []
            ∧ ¬ 10 ∈ ext ∧ ¬ (bs "md").isPrefixOf ext then
          some (name, url, name.length + url.length + 4)
        else none
      else none
    else none

/-- Space or tab (the `[ \t]` class). -/
def isSpTab (b : Nat) : Bool := b = 32 || b = 9

/-- First byte is a space or tab. -/
def headSpTab : List Nat → Bool
  | [] => false
  | b :: _ => isSpTab b

/-- Match of `MARKDOWN_CRIT_PATTERN = ~~[ \t]*(crit[ \t]+[^~]+)~~[ \t]*\n?`
at the head: `(crit_group capture, length)`.  After the literal `crit`, the
maximal run `u` of non-`~` bytes supplies both the `[ \t]+` and `[^~]+`
groups, which together require `u` to start with space/tab and have at
least two bytes. -/
def critMatchAt : List Nat → Option (List Nat × Nat)
  | a :: b :: r =>
    if a = 126 ∧ b = 126 then
      let t0 := r.takeWhile isSpTab
      let r1 := r.drop t0.length
      if (bs "crit").isPrefixOf r1 then
        let u := (r1.drop 4).takeWhile (fun b => b ≠ 126)
        if 2 ≤ u.length ∧ headSpTab u then
          let r2 := (r1.drop 4).drop u.length
          if (bs "~~").isPrefixOf r2 then
            let r3 := r2.drop 2
            let t3 := r3.takeWhile isSpTab
            let nl := if (r3.drop t3.length).head? = some 10 then 1 else 0
            some (bs "crit" ++ u, 2 + t0.length + 4 + u.length + 2 + t3.length + nl)
          else none
        else none
      else none
    else none
  | _ => none

/-- The `((?!crit)[^~])+` run: bytes up to the first `~` or the first
position where the literal `crit` starts. -/
def takeNC : List Nat → List Nat
  | [] => []
  | a :: t =>
    if (bs "crit").isPrefixOf (a :: t) then []
    else if a = 126 then []
    else a :: takeNC t

/-- Match of `MARKDOWN_CRIT_PATTERN_SELF = crit[ \t]+(((?!crit)[^~])+)` at
the head: `(capture, length)`.  When the body after the maximal space/tab
run is empty, the regex backtracks and captures the last space/tab. -/
def selfMatchAt (l : List Nat) : Option (List Nat × Nat) :=
  if (bs "crit").isPrefixOf l then
    let r := l.drop 4
    let t := r.takeWhile isSpTab
    if t = [] then none
    else
      let body := takeNC (r.drop t.length)
      if body ≠ [] then some (body, 4 + t.length + body.length)
      else if 2 ≤ t.length then some ([t.getLastD 0], 4 + t.length)
      else none
  else none

/-- Scan worker implementing `finditer` + splice-replacement: at skip 0 try
the matcher; on a match emit the replacement and swallow the matched bytes. -/
def scanReplaceGo (f : List Nat → Option (List Nat × Nat)) :
    List Nat → Nat → List Nat
  | [], _ => []
  | _ :: l, skip + 1 => scanReplaceGo f l skip
  | a :: l, 0 =>
    match f (a :: l) with
    | some (r, len) => r ++ scanReplaceGo f l (len - 1)
    | none => a :: scanReplaceGo f l 0

/-- Replace every match of `f` (a matcher returning replacement bytes and
match length) in a left-to-right scan. -/
def scanReplace (f : List Nat → Option (List Nat × Nat)) (l : List Nat) :
    List Nat := scanReplaceGo f l 0

/-- Python `bytes.strip()` whitespace class. -/
def isWS (b : Nat) : Bool := b = 32 || b = 9 || b = 10 || b = 13 || b = 11 || b = 12

/-- Python `bytes.strip()`. -/
def stripWS (l : List Nat) : List Nat :=
  ((l.dropWhile isWS).reverse.dropWhile isWS).reverse

/-- `finditer(MARKDOWN_CRIT_PATTERN_SELF, g)`: the list of stripped `crit`
captures in scan order. -/
def selfCapsGo : List Nat → Nat → List (List Nat)
  | [], _ => []
  | _ :: l, skip + 1 => selfCapsGo l skip
  | a :: l, 0 =>
    match selfMatchAt (a :: l) with
    | some (cap, len) => stripWS cap :: selfCapsGo l (len - 1)
    | none => selfCapsGo l 0

/-- Stripped `crit` captures of one crit group. -/
def selfCaps (l : List Nat) : List (List Nat) := selfCapsGo l 0

/-- The crit/tags pass of `repair_content`: for each `MARKDOWN_CRIT_PATTERN`
match, clean the group (strip, drop quotes and newlines, erase embedded
resource links keeping their display text), extract the `crit` captures as
tags, and splice in a newline-joined list of crit short-codes.  Tags are
accumulated with first-occurrence deduplication, modelling the Python
`set` (whose iteration order the claims only ever observe with at most one
element). -/
def critPassGo : List Nat → Nat → List (List Nat) → List Nat × List (List Nat)
  | [], _, acc => ([], acc)
  | _ :: l, skip + 1, acc => critPassGo l skip acc
  | a :: l, 0, acc =>
    match critMatchAt (a :: l) with
    | some (g, len) =>
      let g1 := (stripWS g).filter (fun b => b ≠ 34 && b ≠ 10)
      let g2 := scanReplace (fun l2 => (resMatchAt l2).map (fun m => (m.1, m.2.2))) g1
      let caps := selfCaps g2
      let acc2 := caps.foldl (fun a2 t => if t ∈ a2 then a2 else a2 ++ [t]) acc
      let repl := List.intercalate [10]
        (caps.map (fun t => bs "\x7b\x7b< crit \"" ++ t ++ bs "\" >\x7d\x7d"))
      let res := critPassGo l (len - 1) acc2
      (repl ++ res.1, res.2)
    | none =>
      let res := critPassGo l 0 acc
      (a :: res.1, res.2)

/-! ## Content Repair (`repair_content`) -/

/-- Match of `MARKDOWN_H1_PATTERN = ^# +(?P<title>.+)\r?(\n|$)` (searched
without MULTILINE, so anchored at the very start): returns the title
capture and the content after the heading line and its terminator.  The
greedy `.+` runs to the end of the line, so a `\r` before the newline stays
inside the title; when the maximal space run leaves no title text the regex
backtracks one space into the title. -/
def h1Split (content : List Nat) : Option (List Nat × List Nat) :=
  match content with
  | 35 :: tail =>
    let line := tail.takeWhile (fun b => b ≠ 10)
    let rest := tail.drop line.length
    let sp := line.takeWhile (fun b => b = 32)
    if sp.length = 0 then none
    else if sp.length < line.length then some (line.drop sp.length, rest.drop 1)
    else if 2 ≤ sp.length then some ([32], rest.drop 1)
    else none
  | _ => none

/-- ASCII letter or digit. -/
def isAlnumB (b : Nat) : Bool := isAlphaB b || (48 ≤ b && b ≤ 57)

/-- Bytes `urllib.parse.quote_from_bytes` leaves unescaped (always-safe set
plus the default `safe='/'`). -/
def isQuoteSafe (b : Nat) : Bool :=
  isAlnumB b || b = 95 || b = 46 || b = 45 || b = 126 || b = 47

/-- Uppercase hex digit byte of a value `< 16`. -/
def hexUp (n : Nat) : Nat := if n < 10 then 48 + n else 55 + n

/-- `urllib.parse.quote_from_bytes(name)` with the default safe set. -/
def quoteFromBytes (l : List Nat) : List Nat :=
  (l.map (fun b => if isQuoteSafe b then [b] else [37, hexUp (b / 16), hexUp (b % 16)])).flatten

/-- Hex digit byte (either case). -/
def isHexDig (b : Nat) : Bool :=
  (48 ≤ b && b ≤ 57) || (65 ≤ b && b ≤ 70) || (97 ≤ b && b ≤ 102)

/-- Value of a hex digit byte. -/
def hexVal (b : Nat) : Nat :=
  if b ≤ 57 then b - 48 else if b ≤ 70 then b - 55 else b - 87

/-- `urllib.parse.unquote_to_bytes`: decode each `%XX` with two hex digits;
a `%` not followed by two hex digits stays literal. -/
def unquoteBytes : List Nat → List Nat
  | [] => []
  | 37 :: h1 :: h2 :: t =>
    if isHexDig h1 && isHexDig h2 then (16 * hexVal h1 + hexVal h2) :: unquoteBytes t
    else 37 :: unquoteBytes (h1 :: h2 :: t)
  | a :: t => a :: unquoteBytes t

/-- `os.path.basename` for byte paths: the part after the last `/`. -/
def basenameB (p : List Nat) : List Nat := (splitOnByte 47 p).getLastD []

/-- `DEFAULT_WEIGHT` from weights.py. -/
def DEFAULT_WEIGHT : List Nat := bs "99"

/-- The fixed metadata header emitted by `repair_content`. -/
def mkHeader (title slug : List Nat) (tags : List (List Nat)) : List Nat :=
  bs "---\ntitle: " ++ title ++ bs "\nslug: " ++ slug ++ bs "\nweight: "
    ++ DEFAULT_WEIGHT ++ bs "\ntags: [ "
    ++ List.intercalate (bs ", ") (tags.map (fun t => bs "\"" ++ t ++ bs "\""))
    ++ bs " ]\n---\n\n"

/-- The body transformation pipeline of `repair_content` after title
removal: repair the resource links, then the markdown links (in that
order), then run the crit/tags pass.  Returns the transformed body and
the tag list. -/
def bodyPipeline (file_basename : List Nat) (resource_dir_names : List (List Nat))
    (c : List Nat) : List Nat × List (List Nat) :=
  let old_link_pfx := repair_url_part (quoteFromBytes file_basename)
  let c2 := scanReplace (fun l =>
    (resMatchAt l).map (fun m =>
      (repair_link m.1 m.2.1 old_link_pfx resource_dir_names [] false, m.2.2))) c
  let c3 := scanReplace (fun l =>
    (mdMatchAt l).map (fun m =>
      (repair_link m.1 m.2.1 old_link_pfx resource_dir_names [] true, m.2.2))) c2
  critPassGo c3 0 []

/-- The slug of a document: the percent-decoded, URL-Part-repaired version
of `old_link_prefix`, with a trailing `.md` stripped first. -/
def docSlug (file_basename : List Nat) : List Nat :=
  unquoteBytes (dropSuf (bs ".md")
    (repair_url_part (repair_url_part (quoteFromBytes file_basename))))

/-- `repair_content` from unzip-notion.py: extract the title, repair the
resource links then the markdown links, run the crit/tags pass, and emit
the metadata header followed by the transformed body.  (`dst` is used only
for logging in the source and is omitted.) -/
def repair_content (content src : List Nat)
    (resource_dir_names : List (List Nat)) : List Nat × List (List Nat) :=
  let file_basename := dropSuf (bs ".md") (basenameB src)
  let tm := h1Split content
  let title := match tm with | some p => p.1 | none => file_basename
  let c1 := match tm with | some p => p.2 | none => content
  let pc := bodyPipeline file_basename resource_dir_names c1
  (mkHeader title (docSlug file_basename) pc.2 ++ pc.1, pc.2)

/-! ## Weight Assigner (weights.py) -/

/-- Match of `MARKDOWN_DIR_LINK_PATTERN = \[([^]]*)]\(([^)/]+)\)` at the
head: `(name, url, length)`; the target contains neither `)` nor `/`. -/
def dirMatchAt : List Nat → Option (List Nat × List Nat × Nat)
  | 91 :: t =>
    let name := t.takeWhile (fun b => b ≠ 93)
    let t1 := t.drop name.length
    if (bs "](").isPrefixOf t1 then
      let r2 := t1.drop 2
      let url := r2.takeWhile (fun b => b ≠ 41 && b ≠ 47)
      if url ≠ [] ∧ (r2.drop url.length).head? = some 41 then
        some (name, url, name.length + url.length + 4)
      else none
    else none
  | _ => none

/-- Scan worker for `finditer(MARKDOWN_DIR_LINK_PATTERN, content)`. -/
def findDirGo : List Nat → Nat → List (List Nat × List Nat)
  | [], _ => []
  | _ :: l, skip + 1 => findDirGo l skip
  | a :: l, 0 =>
    match dirMatchAt (a :: l) with
    | some (n, u, len) => (n, u) :: findDirGo l (len - 1)
    | none => findDirGo l 0

/-- All `(name, url)` captures of `MARKDOWN_DIR_LINK_PATTERN` in scan order. -/
def findDirLinks (content : List Nat) : List (List Nat × List Nat) :=
  findDirGo content 0

/-- `link_order_from_index_file` from weights.py, with the filesystem
abstracted by `dirs`, the list of names `d` for which
`os.path.isdir(os.path.join(markdown_dir, d))` holds: fold over the link
matches, skipping a target already collected or not a directory. -/
def link_order (content : List Nat) (dirs : List (List Nat)) : List (List Nat) :=
  (findDirLinks content).foldl
    (fun acc m => if m.2 ∈ acc ∨ ¬ m.2 ∈ dirs then acc else acc ++ [m.2]) []

/-- The weight-assignment loop of `set_weights` for one directory:
`for link_weight, link_target in enumerate(link_order, 1)` paired as
`(target, weight)`. -/
def weightAssignments (content : List Nat) (dirs : List (List Nat)) :
    List (List Nat × Nat) :=
  (link_order content dirs).enum.map (fun p => (p.2, p.1 + 1))

/-- Decimal digit bytes of a natural number (worker with fuel; the fuel is
always at least the number, so it never runs out). -/
def natDigitsGo : Nat → Nat → List Nat
  | 0, _ => []
  | _ + 1, 0 => []
  | fuel + 1, n + 1 =>
    natDigitsGo fuel ((n + 1) / 10) ++ [(n + 1) % 10 + 48]

/-- Bytes of Python `str(n)` for a natural number. -/
def natDigits (n : Nat) : List Nat :=
  if n = 0 then bs "0" else natDigitsGo n n

/-- Does `^weight: 99$` (MULTILINE) match at the head of the list, assuming
the head is at a line start?  The `$` needs a newline or the end of the
content right after the ten matched bytes. -/
def wlHere (l : List Nat) : Bool :=
  (bs "weight: " ++ DEFAULT_WEIGHT).isPrefixOf l &&
    (match l.drop 10 with | [] => true | b :: _ => b == 10)

/-- `re.search(b"^weight: 99$", content, re.MULTILINE)`: splits the content
around the first match, scanning with a line-start flag.  Returns
`(before, after)` with the ten matched bytes removed. -/
def wlSplit : Bool → List Nat → Option (List Nat × List Nat)
  | _, [] => none
  | lineStart, a :: t =>
    if lineStart && wlHere (a :: t) then some ([], (a :: t).drop 10)
    else
      match wlSplit (a == 10) t with
      | none => none
      | some (p, s) => some (a :: p, s)

/-- `set_page_weight` from weights.py on an abstract filesystem cell:
`file = none` models a missing target file; the returned pair is the
file's new content (unchanged when nothing is written) and the new value
of the global exit status (`set_exit_status(1)` on the missing-target
error path). -/
def set_page_weight (target_file_path : List Nat) (file : Option (List Nat))
    (link_weight : Nat) (exit_status : Nat) : Option (List Nat) × Nat :=
  match file with
  | none =>
    if (bs ".png").isSuffixOf target_file_path then (none, exit_status)
    else (none, 1)
  | some content =>
    match wlSplit true content with
    | none => (some content, exit_status)
    | some (p, s) =>
      (some (p ++ bs "weight: " ++ natDigits link_weight ++ s), exit_status)

mutual
/-- The output markdown tree that the Weight Assigner walks.  Directory
entries pair a name with a subtree; names are unique as on a real
filesystem.  (Mutual with `FsEntries` rather than nesting `List` so that
all recursions below are structural and compute under `decide`.) -/
inductive FsTree where
  | file (content : List Nat) : FsTree
  | dir (children : FsEntries) : FsTree
deriving DecidableEq

/-- Named entries of a directory of the output markdown tree. -/
inductive FsEntries where
  | nil : FsEntries
  | cons (name : List Nat) (child : FsTree) (rest : FsEntries) : FsEntries
deriving DecidableEq
end

/-- Look up a directory entry by name. -/
def findChild : FsEntries → List Nat → Option FsTree
  | FsEntries.nil, _ => none
  | FsEntries.cons n t rest, name => if n = name then some t else findChild rest name

/-- The names `d` of a directory's children for which
`os.path.isdir(os.path.join(markdown_dir, d))` holds. -/
def dirNames : FsEntries → List (List Nat)
  | FsEntries.nil => []
  | FsEntries.cons n (FsTree.dir _) rest => n :: dirNames rest
  | FsEntries.cons _ (FsTree.file _) rest => dirNames rest

/-- Is the subtree a directory (`os.path.isdir`)? -/
def isDirT : FsTree → Bool
  | FsTree.dir _ => true
  | FsTree.file _ => false

/-- Does `os.path.join(markdown_dir, t, b"_index.md")` exist as a file,
for a child `t` of the given directory? -/
def childIndexIsFile (children : FsEntries) (t : List Nat) : Bool :=
  match findChild children t with
  | some (FsTree.dir sub) =>
    match findChild sub (bs "_index.md") with
    | some (FsTree.file _) => true
    | _ => false
  | _ => false

mutual
/-- The exit-status effect of `set_weights` from weights.py on the output
tree (file contents written by `set_page_weight` never create or remove
entries and are re-read only by later, outer passes, so the final exit
status depends only on the initial tree): recurse into each child
directory in listing order, then — at non-zero depth — open the
directory's `_index.md` (`FileNotFoundError` sets the status to 1) and run
`set_page_weight` on `t/_index.md` for each target `t` of the link order,
which sets the status to 1 exactly when that file is missing (the path
never ends in `.png`). -/
def set_weights_status : FsTree → Nat → Nat → Nat
  | FsTree.file _, _, s => s
  | FsTree.dir children, depth, s =>
    let s1 := set_weights_statusList children depth s
    if depth = 0 then s1
    else
      match findChild children (bs "_index.md") with
      | some (FsTree.file content) =>
        (link_order content (dirNames children)).foldl
          (fun st t => if childIndexIsFile children t then st else 1) s1
      | _ => 1

/-- The `for name in os.listdir` loop of `set_weights`: recurse into each
child directory, threading the exit status. -/
def set_weights_statusList : FsEntries → Nat → Nat → Nat
  | FsEntries.nil, _, s => s
  | FsEntries.cons _ c rest, depth, s =>
    if isDirT c then
      set_weights_statusList rest depth (set_weights_status c (depth + 1) s)
    else
      set_weights_statusList rest depth s
end

mutual
/-- The non-fatal errors a `set_weights` run records: a traversed non-root
directory whose own `_index.md` is missing, or a link-order target whose
`_index.md` is missing. -/
def set_weights_err : FsTree → Nat → Bool
  | FsTree.file _, _ => false
  | FsTree.dir children, depth =>
    set_weights_errList children depth ||
    (if depth = 0 then false
     else
       match findChild children (bs "_index.md") with
       | some (FsTree.file content) =>
         (link_order content (dirNames children)).any
           (fun t => !childIndexIsFile children t)
       | _ => true)

/-- Errors recorded while walking a list of directory entries. -/
def set_weights_errList : FsEntries → Nat → Bool
  | FsEntries.nil, _ => false
  | FsEntries.cons _ c rest, depth =>
    (if isDirT c then set_weights_err c (depth + 1) else false)
      || set_weights_errList rest depth
end

/-- Trees on which the status model above is an exact rendering of the
program: no index document links to `b".."` or `b"."` (which
`os.path.isdir` would resolve outside the current directory), and no
directory has a subdirectory named `_index.md` (on which `open` would
raise an uncaught `IsADirectoryError`). -/
def wfDirEntries (children : FsEntries) : Bool :=
  match findChild children (bs "_index.md") with
  | some (FsTree.dir _) => false
  | some (FsTree.file content) =>
    (findDirLinks content).all (fun m => m.2 ≠ bs ".." && m.2 ≠ bs ".")
  | none => true

mutual
/-- Wellformedness of every directory of the tree (see `wfDirEntries`). -/
def wfTree : FsTree → Bool
  | FsTree.file _ => true
  | FsTree.dir children => wfDirEntries children && wfTreeList children

/-- Wellformedness of every directory below a list of entries. -/
def wfTreeList : FsEntries → Bool
  | FsEntries.nil => true
  | FsEntries.cons _ c rest => wfTree c && wfTreeList rest
end

/-- A small output tree exercising both error paths of the Weight
Assigner: under `a`, the linked child `b` is fine, the linked child `c`
has no `_index.md`. -/
def sampleWeightedTree : FsTree :=
  FsTree.dir (FsEntries.cons (bs "a")
    (FsTree.dir
      (FsEntries.cons (bs "_index.md") (FsTree.file (bs "intro [x](b) [y](c) end"))
        (FsEntries.cons (bs "b")
          (FsTree.dir (FsEntries.cons (bs "_index.md") (FsTree.file (bs "weight: 99"))
            FsEntries.nil))
          (FsEntries.cons (bs "c") (FsTree.dir FsEntries.nil) FsEntries.nil))))
    FsEntries.nil)

/-! ## Claim-side (specification) definitions

These follow the wording of the spec sentences under scrutiny and are
compared with the code-side definitions above. -/

/-- Decimal value of a digit-byte string (left fold); inverse of
`natDigits`, used to show `natDigits` is injective. -/
def valDigits (l : List Nat) : Nat := l.foldl (fun a b => 10 * a + (b - 48)) 0

/-- Claim C5's wording of the final segment adjustment of Link Repair:
drop a first segment equal to the document's own repaired basename,
otherwise prepend `..` when the first segment is `..` or a declared
parent prefix. -/
def adjustSegs (old_link_pfx : List Nat) (parent_link_pfxs : List (List Nat)) :
    List (List Nat) → List (List Nat)
  | [] => []
  | p0 :: rest =>
    if p0 = old_link_pfx then rest
    else if p0 = bs ".." ∨ p0 ∈ parent_link_pfxs then bs ".." :: p0 :: rest
    else p0 :: rest

/-- First-occurrence deduplication, as in the spec's "deduplicated by
first occurrence". -/
def dedupFirst (l : List (List Nat)) : List (List Nat) :=
  l.foldl (fun acc u => if u ∈ acc then acc else acc ++ [u]) []

/-- Claim C4's "considered links": bracketed-link targets (which by the
pattern contain no `/`) that, per the claim, additionally do not end in
the document extension. -/
def claimConsideredC4 (content : List Nat) : List (List Nat) :=
  ((findDirLinks content).map Prod.snd).filter
    (fun u => ¬ (bs ".md").isSuffixOf u)

/-- Claim C4's link order: considered links in traversal order,
deduplicated by first occurrence, filtered to existing subdirectories. -/
def claimOrderC4 (content : List Nat) (dirs : List (List Nat)) : List (List Nat) :=
  (dedupFirst (claimConsideredC4 content)).filter (fun u => u ∈ dirs)

/-- Claim C4's weight assignment: each considered child paired with its
1-based position. -/
def claimAssignC4 (content : List Nat) (dirs : List (List Nat)) :
    List (List Nat × Nat) :=
  (claimOrderC4 content dirs).enum.map (fun p => (p.2, p.1 + 1))

/-- The amended C4 link order: as the claim, but without the "does not end
in the document extension" restriction, which the code does not impose. -/
def amendedOrderC4 (content : List Nat) (dirs : List (List Nat)) : List (List Nat) :=
  (dedupFirst ((findDirLinks content).map Prod.snd)).filter (fun u => u ∈ dirs)

/-- The amended C4 weight assignment. -/
def amendedAssignC4 (content : List Nat) (dirs : List (List Nat)) :
    List (List Nat × Nat) :=
  (amendedOrderC4 content dirs).enum.map (fun p => (p.2, p.1 + 1))

/-! ## Sanity checks (concrete evaluations of the embedded code) -/

example : repair_url_part (bs "Hello World") = bs "hello-world" := by decide

example : repair_url_part (bs "My%20Page%20\x26%20Stuff") = bs "my-page-et-stuff" := by decide

example :
    repair_name (bs "Page abcdef0123456789abcdef0123456789.md") = bs "Page.md" := by
  decide

example :
    repair_link (bs "x") (bs "https://example.com/a/b") (bs "doc") [] [] true
      = bs "[x](https://example.com/a/b)" := by decide

example : isAbsoluteUrl (bs "HTTPS://\t/p.md") = false := by decide

example :
    repair_link (bs "x") (bs "HTTPS://\t/p.md") (bs "doc") [] [] true
      = bs "[x](https://\t/p)" := by decide

example : isAbsoluteUrl (bs "ht\ttps://example.com/a.md") = true := by decide

example :
    repair_link (bs "x") (bs "sibling/page.md") (bs "doc") [bs "sibling"] [] true
      = bs "[x](../sibling/page)" := by decide

example :
    repair_link (bs "x") (bs "doc/page.md") (bs "doc") [] [] true
      = bs "[x](page)" := by decide

example :
    repair_content (bs "# Hello World\nsee ~~crit needs review~~!done") (bs "dir/My Page.md") []
      = (bs "---\ntitle: Hello World\nslug: my-page\nweight: 99\ntags: [ \"needs review\" ]\n---\n\nsee \x7b\x7b< crit \"needs review\" >\x7d\x7d!done",
         [bs "needs review"]) := by decide

example :
    set_page_weight (bs "a/b/_index.md") (some (bs "---\nweight: 99\n---\nx")) 2 0
      = (some (bs "---\nweight: 2\n---\nx"), 0) := by decide

example :
    set_page_weight (bs "a/b/_index.md") none 2 0 = (none, 1) := by decide

example :
    set_page_weight (bs "a/b/img.png") none 2 0 = (none, 0) := by decide

example :
    weightAssignments (bs "go [x](b)(junk) [y](c.md) [z](b) [w](q/r)")
      [bs "b", bs "c.md"] = [(bs "b", 1), (bs "c.md", 2)] := by decide

/-! ## Helper lemmas -/

theorem mem_of_isPrefixOf : ∀ (p l : List Nat), p.isPrefixOf l = true → ∀ x ∈ p, x ∈ l := by
  intro p
  induction p with
  | nil => intro l _ x hx; cases hx
  | cons a as ih =>
    intro l h x hx
    cases l with
    | nil => simp [List.isPrefixOf] at h
    | cons b bl =>
      simp only [List.isPrefixOf, Bool.and_eq_true, beq_iff_eq] at h
      rcases h with ⟨hab, h2⟩
      rcases List.mem_cons.mp hx with hxa | hx2
      · exact hxa ▸ hab ▸ List.mem_cons_self _ _
      · exact List.mem_cons_of_mem _ (ih bl h2 x hx2)

theorem replaceAllGo_id (p r : List Nat) (c : Nat) (hc : c ∈ p) :
    ∀ l, (∀ b ∈ l, b ≠ c) → replaceAllGo p r l 0 = l := by
  intro l
  induction l with
  | nil => intro _; rfl
  | cons a t ih =>
    intro h
    have hpre : p.isPrefixOf (a :: t) = false := by
      cases hp : p.isPrefixOf (a :: t)
      · rfl
      · exact absurd rfl (h c (mem_of_isPrefixOf p (a :: t) hp c hc))
    simp only [replaceAllGo, hpre, Bool.false_eq_true, if_false]
    exact congrArg (a :: ·) (ih (fun b hb => h b (List.mem_cons_of_mem _ hb)))

theorem replaceAll_id (p r : List Nat) (c : Nat) (hc : c ∈ p)
    (l : List Nat) (h : ∀ b ∈ l, b ≠ c) : replaceAll p r l = l :=
  replaceAllGo_id p r c hc l h

theorem subHashTokGo_id : ∀ l : List Nat, (∀ b ∈ l, b ≠ 37) → subHashTokGo l 0 = l := by
  intro l
  induction l with
  | nil => intro _; rfl
  | cons a t ih =>
    intro h
    have hpre : hashTokHere (a :: t) = false := by
      cases hp : hashTokHere (a :: t)
      · rfl
      · have h1 : (bs "%20").isPrefixOf (a :: t) = true := by
          simp only [hashTokHere, Bool.and_eq_true] at hp
          exact hp.1.1
        exact absurd rfl (h 37 (mem_of_isPrefixOf _ _ h1 37 (by decide)))
    simp only [subHashTokGo, hpre, Bool.false_eq_true, if_false]
    exact congrArg (a :: ·) (ih (fun b hb => h b (List.mem_cons_of_mem _ hb)))

theorem lowerB_id (l : List Nat) (h : ∀ b ∈ l, ¬ (65 ≤ b ∧ b ≤ 90)) :
    lowerB l = l := by
  induction l with
  | nil => rfl
  | cons a t ih =>
    have ha : ¬ (65 ≤ a ∧ a ≤ 90) := h a (List.mem_cons_self _ _)
    simp only [lowerB, List.map_cons]
    rw [if_neg (by simpa using ha)]
    exact congrArg (a :: ·) (ih (fun b hb => h b (List.mem_cons_of_mem _ hb)))

theorem splitOnByte_single (c : Nat) : ∀ l : List Nat, (∀ b ∈ l, b ≠ c) →
    splitOnByte c l = [l] := by
  intro l
  induction l with
  | nil => intro _; rfl
  | cons a t ih =>
    intro h
    have ha : a ≠ c := h a (List.mem_cons_self _ _)
    simp only [splitOnByte, if_neg ha]
    rw [ih (fun b hb => h b (List.mem_cons_of_mem _ hb))]

theorem intercalate_single (s y : List Nat) : List.intercalate s [y] = y := by
  simp [List.intercalate]

/-! ## C1: idempotence of URL-Part Repair -/

/-- C1 (counterexample): URL-Part Repair is not idempotent on every
byte-string input; on `b"%20"` the first application yields `b"-"` and the
second application yields `b""`. -/
theorem C1_cex_not_idempotent :
    repair_url_part (repair_url_part (bs "%20")) ≠ repair_url_part (bs "%20") := by
  decide

/-- C1 (amended): URL-Part Repair is idempotent on every input whose
repaired form contains no space, `%`, `&`, `,` or ASCII uppercase byte and
is not the single dash `b"-"` (the repaired form of inputs such as `b"%20"`,
on which idempotence fails). -/
theorem C1_amended_idempotent (x : List Nat)
    (hb : ∀ b ∈ repair_url_part x,
      b ≠ 32 ∧ b ≠ 37 ∧ b ≠ 38 ∧ b ≠ 44 ∧ ¬ (65 ≤ b ∧ b ≤ 90))
    (hne : repair_url_part x ≠ bs "-") :
    repair_url_part (repair_url_part x) = repair_url_part x := by
  generalize hy : repair_url_part x = y at hb hne
  have h32 : ∀ b ∈ y, b ≠ 32 := fun b h => (hb b h).1
  have h37 : ∀ b ∈ y, b ≠ 37 := fun b h => (hb b h).2.1
  have h38 : ∀ b ∈ y, b ≠ 38 := fun b h => (hb b h).2.2.1
  have h44 : ∀ b ∈ y, b ≠ 44 := fun b h => (hb b h).2.2.2.1
  have hup : ∀ b ∈ y, ¬ (65 ≤ b ∧ b ≤ 90) := fun b h => (hb b h).2.2.2.2
  show repair_url_part y = y
  simp only [repair_url_part]
  rw [show subHashTok y = y from subHashTokGo_id y h37]
  rw [lowerB_id y hup]
  rw [replaceAll_id _ _ 37 (by decide) y h37]
  rw [replaceAll_id _ _ 37 (by decide) y h37]
  rw [replaceAll_id _ _ 37 (by decide) y h37]
  rw [replaceAll_id _ _ 38 (by decide) y h38]
  rw [replaceAll_id _ _ 44 (by decide) y h44]
  rw [splitOnByte_single 32 y h32]
  rw [show List.filter (fun w => decide (w ≠ bs "-")) [y] = [y] by simp [hne]]
  exact intercalate_single _ _

/-- C1 (witness): the amended idempotence theorem applied at
`b"Hello World"`. -/
theorem C1_amended_idempotent_witness :
    (∀ b ∈ repair_url_part (bs "Hello World"),
      b ≠ 32 ∧ b ≠ 37 ∧ b ≠ 38 ∧ b ≠ 44 ∧ ¬ (65 ≤ b ∧ b ≤ 90))
    ∧ repair_url_part (bs "Hello World") ≠ bs "-"
    ∧ repair_url_part (repair_url_part (bs "Hello World"))
        = repair_url_part (bs "Hello World") :=
  ⟨by decide, by decide,
    C1_amended_idempotent (bs "Hello World") (by decide) (by decide)⟩

/-! ## C3: absolute links pass through unchanged -/

/-- C3: when the link target parses with both a scheme and an authority
(ASCII bytes, non-empty scheme and netloc after urlsplit's C0/space lstrip
and tab/CR/LF removal, and no `[`/`]` in the netloc so CPython's urlsplit
does not raise), `repair_link` returns the whole matched link
`[name](url)` unchanged, for every choice of the other parameters. -/
theorem C3_absolute_passthrough (name url old_link_pfx : List Nat)
    (parent_link_pfxs url_pfx : List (List Nat)) (md_link : Bool)
    (hok : urlParseOk url = true) (hs : urlScheme url ≠ [])
    (hn : urlNetloc url ≠ [])
    (hb1 : ¬ 91 ∈ urlNetloc url) (hb2 : ¬ 93 ∈ urlNetloc url) :
    repair_link name url old_link_pfx parent_link_pfxs url_pfx md_link
      = bs "[" ++ name ++ bs "](" ++ url ++ bs ")" := by
  have habs : isAbsoluteUrl url = true := by
    simp [isAbsoluteUrl, hok, hs, hn]
  simp [repair_link, habs]

/-- C3 (witness): the pass-through theorem applied at
`[x](https://example.com/a/b)`. -/
theorem C3_absolute_passthrough_witness :
    urlParseOk (bs "https://example.com/a/b") = true
    ∧ urlScheme (bs "https://example.com/a/b") ≠ []
    ∧ urlNetloc (bs "https://example.com/a/b") ≠ []
    ∧ ¬ 91 ∈ urlNetloc (bs "https://example.com/a/b")
    ∧ ¬ 93 ∈ urlNetloc (bs "https://example.com/a/b")
    ∧ repair_link (bs "x") (bs "https://example.com/a/b") (bs "doc")
        [bs "sib"] [bs "pre"] true
      = bs "[" ++ bs "x" ++ bs "](" ++ bs "https://example.com/a/b" ++ bs ")" :=
  ⟨by decide, by decide, by decide, by decide, by decide,
    C3_absolute_passthrough (bs "x") (bs "https://example.com/a/b") (bs "doc")
      [bs "sib"] [bs "pre"] true (by decide) (by decide) (by decide) (by decide)
      (by decide)⟩

/-! ## C5: segment adjustment of Link Repair -/

/-- C5: on a non-absolute link (per urlparse after its C0/space lstrip and
tab/CR/LF removal; no `[`/`]` in the netloc so urlsplit does not raise),
`repair_link` strips an optional `.md` suffix (markdown mode), drops one
leading slash, splits on `/`, prepends the extra prefix segments, repairs
every segment, then adjusts the first segment exactly as the claim
describes (`adjustSegs`), rejoins with `/`, and rebuilds the link around
the untouched display name. -/
theorem C5_segment_adjustment (name url old_link_pfx : List Nat)
    (parent_link_pfxs url_pfx : List (List Nat)) (md_link : Bool)
    (habs : isAbsoluteUrl url = false)
    (hb1 : ¬ 91 ∈ urlNetloc url) (hb2 : ¬ 93 ∈ urlNetloc url) :
    repair_link name url old_link_pfx parent_link_pfxs url_pfx md_link
      = bs "[" ++ name ++ bs "](" ++ List.intercalate (bs "/")
          (adjustSegs old_link_pfx parent_link_pfxs
            ((url_pfx ++ splitOnByte 47 (dropPre (bs "/")
              (if md_link then dropSuf (bs ".md") url else url))).map repair_url_part))
          ++ bs ")" := by
  simp only [repair_link, habs, Bool.false_eq_true, if_false]
  cases hp : (url_pfx ++ splitOnByte 47 (dropPre (bs "/")
      (if md_link then dropSuf (bs ".md") url else url))).map repair_url_part with
  | nil => simp [adjustSegs]
  | cons p0 rest => simp only [adjustSegs]

/-- C5 (witness): the segment-adjustment theorem applied at
`[x](sibling/page.md)` with parent prefixes `{"sibling"}`. -/
theorem C5_segment_adjustment_witness :
    isAbsoluteUrl (bs "sibling/page.md") = false
    ∧ ¬ 91 ∈ urlNetloc (bs "sibling/page.md")
    ∧ ¬ 93 ∈ urlNetloc (bs "sibling/page.md")
    ∧ repair_link (bs "x") (bs "sibling/page.md") (bs "doc") [bs "sibling"] [] true
      = bs "[" ++ bs "x" ++ bs "](" ++ List.intercalate (bs "/")
          (adjustSegs (bs "doc") [bs "sibling"]
            (([] ++ splitOnByte 47 (dropPre (bs "/")
              (if true then dropSuf (bs ".md") (bs "sibling/page.md")
               else bs "sibling/page.md"))).map repair_url_part))
          ++ bs ")" :=
  ⟨by decide, by decide, by decide,
    C5_segment_adjustment (bs "x") (bs "sibling/page.md") (bs "doc")
      [bs "sibling"] [] true (by decide) (by decide) (by decide)⟩

/-! ## C10: missing .png weight targets are silently skipped -/

/-- C10: on a missing target file, `set_page_weight` leaves the exit
status unchanged when the path ends in `.png` and sets it to 1 otherwise;
nothing is written in either case. -/
theorem C10_png_silent (p : List Nat) (w s : Nat) :
    set_page_weight p none w s
      = (none, if (bs ".png").isSuffixOf p then s else 1) := by
  cases h : (bs ".png").isSuffixOf p <;> simp [set_page_weight, h]

/-! ## C2: exit status of the run -/

theorem foldl_status_one (P : List Nat → Bool) (lo : List (List Nat)) :
    lo.foldl (fun st t => if P t then st else 1) 1 = 1 := by
  induction lo with
  | nil => rfl
  | cons t lo ih => cases h : P t <;> simpa [h] using ih

theorem foldl_status (P : List Nat → Bool) (lo : List (List Nat)) (s : Nat) :
    lo.foldl (fun st t => if P t then st else 1) s
      = if lo.any (fun t => !(P t)) then 1 else s := by
  induction lo generalizing s with
  | nil => simp
  | cons t lo ih =>
    cases h : P t
    · simp [List.foldl_cons, List.any_cons, h, foldl_status_one]
    · simp [List.foldl_cons, List.any_cons, h, ih]

mutual
theorem swStatus_one (t : FsTree) (d : Nat) : set_weights_status t d 1 = 1 := by
  cases t with
  | file c => rfl
  | dir children =>
    simp only [set_weights_status, swStatusList_one children d]
    by_cases hd : d = 0
    · simp [hd]
    · cases hf : findChild children (bs "_index.md") with
      | none => simp [hd, hf]
      | some sub =>
        cases sub with
        | file content => simp [hd, hf, foldl_status_one]
        | dir sub2 => simp [hd, hf]

theorem swStatusList_one (es : FsEntries) (d : Nat) :
    set_weights_statusList es d 1 = 1 := by
  cases es with
  | nil => rfl
  | cons n c rest =>
    simp only [set_weights_statusList]
    cases hc : isDirT c
    · simpa [hc] using swStatusList_one rest d
    · rw [if_pos rfl, swStatus_one c (d + 1)]
      exact swStatusList_one rest d
end

mutual
theorem swStatus_zero (t : FsTree) (d : Nat) :
    set_weights_status t d 0 = if set_weights_err t d then 1 else 0 := by
  cases t with
  | file c => rfl
  | dir children =>
    by_cases hd : d = 0
    · subst hd
      simp [set_weights_status, set_weights_err, swStatusList_zero children 0]
    · cases hf : findChild children (bs "_index.md") with
      | none =>
        simp [set_weights_status, set_weights_err, hd, hf]
      | some sub =>
        cases sub with
        | file content =>
          simp only [set_weights_status, set_weights_err,
            swStatusList_zero children d, hf]
          rw [if_neg hd, if_neg hd, foldl_status]
          cases he : set_weights_errList children d <;>
            cases ha : (link_order content (dirNames children)).any
                (fun u => !childIndexIsFile children u) <;>
              simp [he, ha]
        | dir sub2 => simp [set_weights_status, set_weights_err, hd, hf]

theorem swStatusList_zero (es : FsEntries) (d : Nat) :
    set_weights_statusList es d 0
      = if set_weights_errList es d then 1 else 0 := by
  cases es with
  | nil => rfl
  | cons n c rest =>
    simp only [set_weights_statusList, set_weights_errList]
    by_cases hc : isDirT c = true
    · rw [if_pos hc, swStatus_zero c (d + 1)]
      simp only [if_pos hc]
      by_cases he : set_weights_err c (d + 1) = true
      · simp [he, swStatusList_one]
      · rw [Bool.not_eq_true] at he
        simpa [he] using swStatusList_zero rest d
    · rw [if_neg hc]
      simpa [hc] using swStatusList_zero rest d
end

/-- C2 (counterexample): a weight target that exists but has no
default-weight placeholder line does not mark the run's exit status as
failed — the status stays 0, contradicting the claim that a missing
placeholder marks the run failed. -/
theorem C2_cex_missing_placeholder_not_failed :
    wlSplit true (bs "hello") = none
    ∧ set_page_weight (bs "d/a/_index.md") (some (bs "hello")) 1 0
        = (some (bs "hello"), 0) := by decide

/-- C2 (amended): on a wellformed output tree, the `set_weights` run
started with exit status 0 ends with status 0 on full success and with
status 1 whenever any non-fatal error was recorded — a traversed
non-root directory missing its own `_index.md`, or a weight-assignment
link target whose `_index.md` is missing on disk; a target document that
exists but lacks the default-weight placeholder line is left untouched
and does not change the exit status. -/
theorem C2_amended_exit_status (t : FsTree) (p c : List Nat) (w s : Nat)
    (hwf : wfTree t = true) (hc : wlSplit true c = none) :
    set_weights_status t 0 0 = (if set_weights_err t 0 then 1 else 0)
    ∧ set_page_weight p (some c) w s = (some c, s) :=
  ⟨swStatus_zero t 0, by simp [set_page_weight, hc]⟩

/-- C2 (witness): the amended exit-status theorem applied to a concrete
wellformed tree (whose walk records a missing directory `_index.md` and
a missing weight-target index) and a placeholder-less target document. -/
theorem C2_amended_exit_status_witness :
    wfTree sampleWeightedTree = true
    ∧ wlSplit true (bs "body only") = none
    ∧ (set_weights_status sampleWeightedTree 0 0
        = (if set_weights_err sampleWeightedTree 0 then 1 else 0)
       ∧ set_page_weight (bs "d/b/_index.md") (some (bs "body only")) 2 0
          = (some (bs "body only"), 0)) :=
  ⟨by decide, by decide,
    C2_amended_exit_status sampleWeightedTree (bs "d/b/_index.md")
      (bs "body only") 2 0 (by decide) (by decide)⟩

/-! ## C4: weight order from the index document -/

theorem linkOrderFold (dirs : List (List Nat)) :
    ∀ (ts : List (List Nat × List Nat)) (seen : List (List Nat)),
      ts.foldl (fun acc m => if m.2 ∈ acc ∨ ¬ m.2 ∈ dirs then acc else acc ++ [m.2])
          (seen.filter (fun u => decide (u ∈ dirs)))
        = ((ts.map Prod.snd).foldl
            (fun acc u => if u ∈ acc then acc else acc ++ [u]) seen).filter
            (fun u => decide (u ∈ dirs)) := by
  intro ts
  induction ts with
  | nil => intro seen; rfl
  | cons m ts ih =>
    intro seen
    obtain ⟨n, u⟩ := m
    simp only [List.foldl_cons, List.map_cons]
    by_cases hd : u ∈ dirs
    · by_cases hs : u ∈ seen
      · have h1 : u ∈ seen.filter (fun u => decide (u ∈ dirs)) :=
          List.mem_filter.mpr ⟨hs, by simpa using hd⟩
        rw [if_pos (Or.inl h1), if_pos hs]
        exact ih seen
      · have h1 : ¬ (u ∈ seen.filter (fun u => decide (u ∈ dirs)) ∨ ¬ u ∈ dirs) := by
          push_neg
          exact ⟨fun hm => hs (List.mem_filter.mp hm).1, hd⟩
        rw [if_neg h1, if_neg hs]
        have h2 : (seen ++ [u]).filter (fun u => decide (u ∈ dirs))
            = seen.filter (fun u => decide (u ∈ dirs)) ++ [u] := by
          simp [List.filter_append, hd]
        rw [← h2]
        exact ih (seen ++ [u])
    · rw [if_pos (Or.inr hd)]
      by_cases hs : u ∈ seen
      · rw [if_pos hs]
        exact ih seen
      · rw [if_neg hs]
        have h2 : (seen ++ [u]).filter (fun u => decide (u ∈ dirs))
            = seen.filter (fun u => decide (u ∈ dirs)) := by
          simp [List.filter_append, hd]
        rw [← h2]
        exact ih (seen ++ [u])

theorem link_order_eq_amended (content : List Nat) (dirs : List (List Nat)) :
    link_order content dirs = amendedOrderC4 content dirs := by
  have h := linkOrderFold dirs (findDirLinks content) []
  simpa [link_order, amendedOrderC4, dedupFirst] using h

/-- C4 (counterexample): a linked child literally named `a.md` that is an
existing subdirectory is weighted by the code, but the claim's description
excludes it (its target ends in the document extension). -/
theorem C4_cex_md_named_dir :
    weightAssignments (bs "[x](a.md)") [bs "a.md"]
      ≠ claimAssignC4 (bs "[x](a.md)") [bs "a.md"] := by decide

/-- C4 (amended): each linked child's weight is its 1-based position in
the order of bracketed links with slash-free targets in the directory's
index document, in traversal order, deduplicated by first occurrence and
filtered to existing subdirectories — without the claim's additional
"does not end in the document extension" restriction. -/
theorem C4_amended_weight_order (content : List Nat) (dirs : List (List Nat)) :
    weightAssignments content dirs = amendedAssignC4 content dirs := by
  unfold weightAssignments amendedAssignC4
  rw [link_order_eq_amended]

/-! ## C8: Name Repair strips the trailing hash token -/

theorem isPrefixOf_length_le : ∀ p l : List Nat, p.isPrefixOf l = true →
    p.length ≤ l.length := by
  intro p
  induction p with
  | nil => intro l _; simp
  | cons a as ih =>
    intro l h
    cases l with
    | nil => simp [List.isPrefixOf] at h
    | cons b bl =>
      simp only [List.isPrefixOf, Bool.and_eq_true] at h
      simpa using ih bl h.2

theorem isPrefixOf_append_of_le : ∀ p l s : List Nat, p.length ≤ l.length →
    p.isPrefixOf (l ++ s) = p.isPrefixOf l := by
  intro p
  induction p with
  | nil => intro l s _; simp [List.isPrefixOf]
  | cons a as ih =>
    intro l s hl
    cases l with
    | nil => simp at hl
    | cons b bl =>
      simp only [List.cons_append, List.isPrefixOf, List.append_eq]
      rw [ih bl s (by simpa using hl)]

theorem mem_of_isPrefixOf_cross : ∀ (l p s : List Nat) (c : Nat),
    p.isPrefixOf (l ++ s) = true → l.length < p.length → s.head? = some c →
    c ∈ p := by
  intro l
  induction l with
  | nil =>
    intro p s c hpre hlen hhead
    cases p with
    | nil => simp at hlen
    | cons a as =>
      cases s with
      | nil => simp at hhead
      | cons b bl =>
        simp only [List.nil_append, List.isPrefixOf, Bool.and_eq_true,
          beq_iff_eq] at hpre
        have hc : c = b := (Option.some.inj hhead).symm
        exact hc ▸ hpre.1 ▸ List.mem_cons_self _ _
  | cons x xl ih =>
    intro p s c hpre hlen hhead
    cases p with
    | nil => simp at hlen
    | cons a as =>
      simp only [List.cons_append, List.isPrefixOf, Bool.and_eq_true] at hpre
      exact List.mem_cons_of_mem _ (ih as s c hpre.2 (by simpa using hlen) hhead)

theorem replaceAllGo_append (p r : List Nat) (hp : ¬ 32 ∈ p) :
    ∀ (x : List Nat) (skip : Nat) (s : List Nat), skip ≤ x.length →
      s.head? = some 32 →
      replaceAllGo p r (x ++ s) skip = replaceAllGo p r x skip ++ replaceAllGo p r s 0 := by
  intro x
  induction x with
  | nil =>
    intro skip s hsk _
    have h0 : skip = 0 := Nat.le_zero.mp hsk
    subst h0
    simp [replaceAllGo]
  | cons a x ih =>
    intro skip s hsk hh
    cases skip with
    | succ k =>
      simp only [List.cons_append, replaceAllGo]
      exact ih k s (by simpa using Nat.succ_le_succ_iff.mp hsk) hh
    | zero =>
      by_cases hfit : p.length ≤ (a :: x).length
      · have hpre : p.isPrefixOf (a :: (x ++ s)) = p.isPrefixOf (a :: x) := by
          have := isPrefixOf_append_of_le p (a :: x) s hfit
          simpa using this
        by_cases hm : p.isPrefixOf (a :: x) = true
        · have hm2 : p.isPrefixOf (a :: (x ++ s)) = true := by rw [hpre, hm]
          simp only [List.cons_append, replaceAllGo, List.append_eq, hm, hm2, if_true]
          rw [ih (p.length - 1) s (by simp only [List.length_cons] at hfit; omega) hh]
          simp
        · have hm2 : ¬ p.isPrefixOf (a :: (x ++ s)) = true := by rw [hpre]; exact hm
          simp only [List.cons_append, replaceAllGo, List.append_eq, if_neg hm, if_neg hm2]
          rw [ih 0 s (Nat.zero_le _) hh]
      · have hcross : ¬ p.isPrefixOf (a :: (x ++ s)) = true := by
          intro hq
          exact absurd (mem_of_isPrefixOf_cross (a :: x) p s 32
            (by simpa using hq) (by simp only [List.length_cons] at hfit ⊢; omega) hh) hp
        have hshort : ¬ p.isPrefixOf (a :: x) = true := by
          intro hq
          exact absurd (isPrefixOf_length_le p (a :: x) hq) hfit
        simp only [List.cons_append, replaceAllGo, List.append_eq, if_neg hshort, if_neg hcross]
        rw [ih 0 s (Nat.zero_le _) hh]

theorem replaceAll_append (p r : List Nat) (hp : ¬ 32 ∈ p) (x s : List Nat)
    (hh : s.head? = some 32) :
    replaceAll p r (x ++ s) = replaceAll p r x ++ replaceAll p r s :=
  replaceAllGo_append p r hp x 0 s (Nat.zero_le _) hh

theorem accentFold_append (x S : List Nat) (hS : S.head? = some 32)
    (hm1 : ∀ b ∈ S, b ≠ 166) (hm2 : ∀ b ∈ S, b ≠ 204)
    (hm3 : ∀ b ∈ S, b ≠ 195) (hm5 : ∀ b ∈ S, b ≠ 226) :
    accentFold (x ++ S) = accentFold x ++ S := by
  simp only [accentFold]
  rw [replaceAll_append _ _ (by decide) x S hS,
    replaceAll_id _ _ 166 (by decide) S hm1]
  rw [replaceAll_append _ _ (by decide) _ S hS,
    replaceAll_id _ _ 204 (by decide) S hm2]
  rw [replaceAll_append _ _ (by decide) _ S hS,
    replaceAll_id _ _ 195 (by decide) S hm3]
  rw [replaceAll_append _ _ (by decide) _ S hS,
    replaceAll_id _ _ 195 (by decide) S hm3]
  rw [replaceAll_append _ _ (by decide) _ S hS,
    replaceAll_id _ _ 226 (by decide) S hm5]

theorem findHashSuf_none : ∀ l : List Nat, ¬ 32 ∈ l → findHashSuf l = none := by
  intro l
  induction l with
  | nil => intro _; rfl
  | cons a t ih =>
    intro h
    have ha : ¬ a = 32 := fun he => h (he ▸ List.mem_cons_self _ _)
    have hat : hashSufAt (a :: t) = none := by
      simp [hashSufAt, ha]
    simp [findHashSuf, ih (fun hm => h (List.mem_cons_of_mem _ hm)), hat]

theorem findHashSuf_hash (h : List Nat) (h32 : h.length = 32)
    (hhex : h.all is09az = true) :
    ∀ q : List Nat, findHashSuf (q ++ (bs " " ++ h ++ bs ".md")) = some (q, true) := by
  have hno32 : ¬ 32 ∈ (h ++ bs ".md") := by
    intro hm
    rcases List.mem_append.mp hm with hm | hm
    · exact absurd (List.all_eq_true.mp hhex _ hm) (by decide)
    · simp [bs] at hm
  have hbase : findHashSuf (bs " " ++ h ++ bs ".md") = some ([], true) := by
    have hrec : findHashSuf (h ++ bs ".md") = none := findHashSuf_none _ hno32
    have hat : hashSufAt (32 :: (h ++ bs ".md")) = some true := by
      have hlen : (32 :: (h ++ bs ".md")).length = 36 := by
        simp [bs, h32]
      have htake : (h ++ bs ".md").take 32 = h := by
        simpa [h32] using List.take_left h (bs ".md")
      have hdrop : (h ++ bs ".md").drop 32 = bs ".md" := by
        simpa [h32] using List.drop_left h (bs ".md")
      simp [hashSufAt, hlen, htake, hdrop]
      intro x hx
      exact List.all_eq_true.mp hhex x hx
    show findHashSuf (32 :: (h ++ bs ".md")) = some ([], true)
    simp [findHashSuf, hrec, hat]
  intro q
  induction q with
  | nil => simpa using hbase
  | cons a q ih =>
    simp only [List.cons_append, findHashSuf, List.append_eq, ih]

/-- C8: `repair_name` strips the trailing space + 32-character token while
preserving the `.md` extension that follows it (the accent replace chain
still applies to the rest of the name), and in particular
`repair_name(b"Page abcdef0123456789abcdef0123456789.md") = b"Page.md"`. -/
theorem C8_strip_hash_suffix (p h : List Nat) (h32 : h.length = 32)
    (hhex : h.all is09az = true) :
    repair_name (p ++ bs " " ++ h ++ bs ".md") = accentFold p ++ bs ".md"
    ∧ repair_name (bs "Page abcdef0123456789abcdef0123456789.md") = bs "Page.md" := by
  refine ⟨?_, by decide⟩
  have hSmem : ∀ b ∈ (bs " " ++ h ++ bs ".md"), b < 128 := by
    intro b hb
    rcases List.mem_append.mp hb with hb | hb
    · rcases List.mem_append.mp hb with hb | hb
      · simp [bs] at hb
        omega
      · have := List.all_eq_true.mp hhex _ hb
        simp [is09az] at this
        omega
    · simp [bs] at hb
      omega
  have hS32 : (bs " " ++ h ++ bs ".md").head? = some 32 := rfl
  have hassoc : p ++ bs " " ++ h ++ bs ".md" = p ++ (bs " " ++ h ++ bs ".md") := by
    simp [List.append_assoc]
  have e : accentFold (p ++ (bs " " ++ h ++ bs ".md"))
      = accentFold p ++ (bs " " ++ h ++ bs ".md") :=
    accentFold_append p _ hS32
      (fun b hb => by have := hSmem b hb; omega)
      (fun b hb => by have := hSmem b hb; omega)
      (fun b hb => by have := hSmem b hb; omega)
      (fun b hb => by have := hSmem b hb; omega)
  rw [repair_name, hassoc, e, findHashSuf_hash h h32 hhex (accentFold p)]
  simp [List.append_assoc]

/-- C8 (witness): the hash-suffix theorem applied at
`b"Page abcdef0123456789abcdef0123456789.md"`. -/
theorem C8_strip_hash_suffix_witness :
    (bs "abcdef0123456789abcdef0123456789").length = 32
    ∧ (bs "abcdef0123456789abcdef0123456789").all is09az = true
    ∧ (repair_name (bs "Page" ++ bs " " ++ bs "abcdef0123456789abcdef0123456789" ++ bs ".md")
        = accentFold (bs "Page") ++ bs ".md"
      ∧ repair_name (bs "Page abcdef0123456789abcdef0123456789.md") = bs "Page.md") :=
  ⟨by decide, by decide,
    C8_strip_hash_suffix (bs "Page") (bs "abcdef0123456789abcdef0123456789")
      (by decide) (by decide)⟩

/-! ## C9: idempotence of the Weight Assigner on an already-weighted tree -/

theorem natDigitsGo_all : ∀ fuel n : Nat,
    (natDigitsGo fuel n).all (fun b => 48 ≤ b && b ≤ 57) = true := by
  intro fuel
  induction fuel with
  | zero => intro n; rfl
  | succ fuel ih =>
    intro n
    cases n with
    | zero => rfl
    | succ m =>
      simp only [natDigitsGo, List.all_append, Bool.and_eq_true]
      refine ⟨ih _, ?_⟩
      have : (m + 1) % 10 < 10 := Nat.mod_lt _ (by omega)
      simp only [List.all_cons, List.all_nil, Bool.and_true, Bool.and_eq_true,
        decide_eq_true_eq]
      omega

theorem natDigits_all (n : Nat) :
    (natDigits n).all (fun b => 48 ≤ b && b ≤ 57) = true := by
  unfold natDigits
  by_cases h : n = 0
  · rw [if_pos h]; decide
  · rw [if_neg h]; exact natDigitsGo_all n n

theorem natDigits_ne_nil (n : Nat) : natDigits n ≠ [] := by
  unfold natDigits
  by_cases h : n = 0
  · rw [if_pos h]; decide
  · rw [if_neg h]
    obtain ⟨m, rfl⟩ := Nat.exists_eq_succ_of_ne_zero h
    simp [natDigitsGo]

theorem valDigits_append (l : List Nat) (d : Nat) :
    valDigits (l ++ [d]) = 10 * valDigits l + (d - 48) := by
  simp [valDigits, List.foldl_append]

theorem natDigitsGo_val : ∀ fuel n : Nat, n ≤ fuel →
    valDigits (natDigitsGo fuel n) = n := by
  intro fuel
  induction fuel with
  | zero =>
    intro n hn
    have : n = 0 := Nat.le_zero.mp hn
    simp [this, natDigitsGo, valDigits]
  | succ fuel ih =>
    intro n hn
    cases n with
    | zero => simp [natDigitsGo, valDigits]
    | succ m =>
      rw [natDigitsGo, valDigits_append]
      have hdiv : (m + 1) / 10 ≤ fuel := by
        have := Nat.div_lt_self (Nat.succ_pos m) (by omega : 1 < 10)
        omega
      rw [ih _ hdiv]
      have := Nat.div_add_mod (m + 1) 10
      omega

theorem natDigits_val (n : Nat) : valDigits (natDigits n) = n := by
  unfold natDigits
  by_cases h : n = 0
  · rw [if_pos h, h]; decide
  · rw [if_neg h]
    exact natDigitsGo_val n n le_rfl

theorem natDigits_ne99 (w : Nat) (hw : w ≠ 99) : natDigits w ≠ bs "99" := by
  intro he
  apply hw
  have h1 := natDigits_val w
  rw [he] at h1
  have : valDigits (bs "99") = 99 := by decide
  omega

theorem take_of_isPrefixOf : ∀ p l : List Nat, p.isPrefixOf l = true →
    l.take p.length = p := by
  intro p
  induction p with
  | nil => intro l _; simp
  | cons a as ih =>
    intro l h
    cases l with
    | nil => simp [List.isPrefixOf] at h
    | cons b bl =>
      simp only [List.isPrefixOf, Bool.and_eq_true, beq_iff_eq] at h
      simp [List.take_cons, h.1.symm, ih bl h.2]

theorem wlSplit_shape : ∀ (c : List Nat) (ls : Bool) (pre suf : List Nat),
    wlSplit ls c = some (pre, suf) →
    c = pre ++ ((bs "weight: " ++ DEFAULT_WEIGHT) ++ suf) := by
  intro c
  induction c with
  | nil => intro ls pre suf h; simp [wlSplit] at h
  | cons a t ih =>
    intro ls pre suf h
    rw [wlSplit] at h
    by_cases hc : (ls && wlHere (a :: t)) = true
    · rw [if_pos hc] at h
      have hpre : pre = [] := by
        have := (Option.some.inj h)
        exact (Prod.mk.injEq _ _ _ _ ▸ this).1.symm
      have hsuf : suf = (a :: t).drop 10 := by
        have := (Option.some.inj h)
        exact ((Prod.mk.injEq _ _ _ _ ▸ this).2).symm
      have hw : (bs "weight: " ++ DEFAULT_WEIGHT).isPrefixOf (a :: t) = true := by
        simp only [wlHere, Bool.and_eq_true] at hc
        exact hc.2.1
      have htake := take_of_isPrefixOf _ _ hw
      have hlen : (bs "weight: " ++ DEFAULT_WEIGHT).length = 10 := by decide
      rw [hlen] at htake
      subst hpre hsuf
      simp only [List.nil_append]
      conv in (a :: t) => rw [← List.take_append_drop 10 (a :: t)]
      rw [htake]
    · rw [if_neg hc] at h
      cases hr : wlSplit (a == 10) t with
      | none => rw [hr] at h; simp at h
      | some q =>
        obtain ⟨p1, s1⟩ := q
        rw [hr] at h
        simp only [Option.some.injEq, Prod.mk.injEq] at h
        obtain ⟨hpre, hsuf⟩ := h
        have := ih (a == 10) p1 s1 hr
        subst hsuf
        rw [← hpre]
        simp [this]

theorem wlSplit_false_append (P : List Nat) (s : List Nat)
    (hP : ∀ b ∈ P, b ≠ 10) :
    wlSplit false (P ++ s) = (wlSplit false s).map (fun q => (P ++ q.1, q.2)) := by
  induction P with
  | nil =>
    simp only [List.nil_append]
    cases h : wlSplit false s with
    | none => simp
    | some q => simp
  | cons a P ih =>
    have ha : (a == 10) = false := by
      simp only [beq_eq_false_iff_ne]
      exact hP a (List.mem_cons_self _ _)
    simp only [List.cons_append, wlSplit, Bool.false_and, Bool.false_eq_true,
      if_false, ha, List.append_eq]
    rw [ih (fun b hb => hP b (List.mem_cons_of_mem _ hb))]
    cases h : wlSplit false s with
    | none => simp
    | some q => simp

theorem wlHere_nodigits (d suf : List Nat)
    (hall : d.all (fun b => 48 ≤ b && b ≤ 57) = true) (hne : d ≠ [])
    (hd99 : d ≠ bs "99")
    (hsuf : suf = [] ∨ suf.head? = some 10) :
    wlHere (bs "weight: " ++ (d ++ suf)) = false := by
  cases d with
  | nil => exact absurd rfl hne
  | cons d0 d' =>
    rw [show bs "weight: " = [119, 101, 105, 103, 104, 116, 58, 32] from by decide]
    simp only [wlHere, DEFAULT_WEIGHT,
      show bs "weight: " = [119, 101, 105, 103, 104, 116, 58, 32] from by decide,
      show bs "99" = [57, 57] from by decide]
    by_cases h0 : d0 = 57
    · subst h0
      cases d' with
      | nil =>
        rcases hsuf with rfl | hh
        · decide
        · cases suf with
          | nil => simp at hh
          | cons b s' =>
            have hb : b = 10 := by simpa using hh
            subst hb
            simp [List.isPrefixOf]
      | cons d1 d'' =>
        by_cases h1 : d1 = 57
        · subst h1
          cases d'' with
          | nil => exact absurd (show ([57, 57] : List Nat) = bs "99" from by decide) hd99
          | cons d2 d3 =>
            have hd2 : 48 ≤ d2 := by
              have := List.all_eq_true.mp hall d2 (by simp)
              simp at this
              omega
            have hd2' : (d2 == 10) = false := by
              simp only [beq_eq_false_iff_ne]
              omega
            simp [List.isPrefixOf, hd2']
        · have h1' : (57 == d1) = false := by
            simp only [beq_eq_false_iff_ne]
            omega
          simp [List.isPrefixOf, h1']
    · have h0' : (57 == d0) = false := by
        simp only [beq_eq_false_iff_ne]
        omega
      simp [List.isPrefixOf, h0']

theorem wlHere_ext (P s1 s2 : List Nat) (hP : 10 ≤ P.length)
    (hh : s1.head? = s2.head?) (hn : s1 = [] ↔ s2 = []) :
    wlHere (P ++ s1) = wlHere (P ++ s2) := by
  have hlen : (bs "weight: " ++ DEFAULT_WEIGHT).length = 10 := by decide
  unfold wlHere
  rw [isPrefixOf_append_of_le _ _ _ (by omega),
    isPrefixOf_append_of_le _ _ _ (by omega)]
  have hd1 : (P ++ s1).drop 10 = P.drop 10 ++ s1 :=
    List.drop_append_of_le_length (by omega)
  have hd2 : (P ++ s2).drop 10 = P.drop 10 ++ s2 :=
    List.drop_append_of_le_length (by omega)
  rw [hd1, hd2]
  cases hq : P.drop 10 with
  | nil =>
    simp only [List.nil_append]
    cases s1 with
    | nil =>
      have : s2 = [] := hn.mp rfl
      rw [this]
    | cons b1 t1 =>
      cases s2 with
      | nil => exact absurd (hn.mpr rfl) (by simp)
      | cons b2 t2 =>
        have : b1 = b2 := by simpa using hh
        rw [this]
  | cons q qs => simp

theorem wlHere_short (P rest : List Nat) (h1 : 1 ≤ P.length) (h9 : P.length ≤ 9) :
    wlHere (P ++ 119 :: rest) = false := by
  unfold wlHere
  have hpre : (bs "weight: " ++ DEFAULT_WEIGHT).isPrefixOf (P ++ 119 :: rest) = false := by
    cases hq : (bs "weight: " ++ DEFAULT_WEIGHT).isPrefixOf (P ++ 119 :: rest)
    · rfl
    · exfalso
      have htake := take_of_isPrefixOf _ _ hq
      have hlen : (bs "weight: " ++ DEFAULT_WEIGHT).length = 10 := by decide
      rw [hlen] at htake
      have hget : (bs "weight: " ++ DEFAULT_WEIGHT).get? P.length = some 119 := by
        rw [← htake]
        rw [List.get?_take (by omega)]
        rw [List.get?_append_right (by omega)]
        simp
      rw [show bs "weight: " ++ DEFAULT_WEIGHT = [119, 101, 105, 103, 104, 116, 58, 32, 57, 57] from by decide] at hget
      have : P.length = 1 ∨ P.length = 2 ∨ P.length = 3 ∨ P.length = 4
          ∨ P.length = 5 ∨ P.length = 6 ∨ P.length = 7 ∨ P.length = 8
          ∨ P.length = 9 := by omega
      rcases this with h | h | h | h | h | h | h | h | h <;>
        rw [h] at hget <;> simp at hget
  rw [hpre]
  simp

theorem wlSplit_cons (ls : Bool) (a : Nat) (t : List Nat) :
    wlSplit ls (a :: t)
      = if (ls && wlHere (a :: t)) = true then some ([], (a :: t).drop 10)
        else
          match wlSplit (a == 10) t with
          | none => none
          | some (p, s) => some (a :: p, s) := by
  rw [wlSplit]

theorem wlSplit_after_replace :
    ∀ (pre : List Nat) (ls : Bool) (suf d : List Nat),
      d.all (fun b => 48 ≤ b && b ≤ 57) = true → d ≠ [] → d ≠ bs "99" →
      wlSplit ls (pre ++ ((bs "weight: " ++ DEFAULT_WEIGHT) ++ suf)) = some (pre, suf) →
      wlSplit false suf = none →
      wlSplit ls (pre ++ (bs "weight: " ++ (d ++ suf))) = none := by
  intro pre
  induction pre with
  | nil =>
    intro ls suf d hall hne h99 hsp hnone
    simp only [List.nil_append] at hsp ⊢
    cases ls with
    | false =>
      exfalso
      have hP : ∀ b ∈ (bs "weight: " ++ DEFAULT_WEIGHT), b ≠ 10 := by decide
      rw [wlSplit_false_append _ suf hP, hnone] at hsp
      simp at hsp
    | true =>
      have hshape : (bs "weight: " ++ DEFAULT_WEIGHT) ++ suf
          = 119 :: ([101, 105, 103, 104, 116, 58, 32, 57, 57] ++ suf) := by
        rw [show bs "weight: " ++ DEFAULT_WEIGHT
            = 119 :: [101, 105, 103, 104, 116, 58, 32, 57, 57] from by decide]
        simp
      rw [hshape, wlSplit_cons] at hsp
      by_cases hwh : wlHere (119 :: ([101, 105, 103, 104, 116, 58, 32, 57, 57] ++ suf)) = true
      · have hend : suf = [] ∨ suf.head? = some 10 := by
          have h2 := hwh
          unfold wlHere at h2
          rw [Bool.and_eq_true] at h2
          have hdrop : (119 :: ([101, 105, 103, 104, 116, 58, 32, 57, 57] ++ suf)).drop 10
              = suf := by simp
          rw [hdrop] at h2
          cases suf with
          | nil => exact Or.inl rfl
          | cons b t =>
            right
            have : (b == 10) = true := h2.2
            simp only [beq_iff_eq] at this
            simp [this]
        have hnew : wlHere (bs "weight: " ++ (d ++ suf)) = false :=
          wlHere_nodigits d suf hall hne h99 hend
        have hshape2 : bs "weight: " ++ (d ++ suf)
            = 119 :: ([101, 105, 103, 104, 116, 58, 32] ++ (d ++ suf)) := by
          rw [show bs "weight: " = 119 :: [101, 105, 103, 104, 116, 58, 32] from by decide]
          simp
        rw [hshape2] at hnew ⊢
        simp only [List.cons_append, List.nil_append] at hnew
        rw [wlSplit_cons]
        rw [if_neg (by simp [hnew])]
        have hstep : wlSplit ((119 : Nat) == 10)
            ([101, 105, 103, 104, 116, 58, 32] ++ (d ++ suf)) = none := by
          rw [show (((119 : Nat) == 10)) = false from by decide]
          have hP2 : ∀ b ∈ ([101, 105, 103, 104, 116, 58, 32] ++ d), b ≠ 10 := by
            intro b hb
            rcases List.mem_append.mp hb with hb | hb
            · simp at hb
              omega
            · have := List.all_eq_true.mp hall b hb
              simp at this
              omega
          rw [← List.append_assoc]
          rw [wlSplit_false_append _ suf hP2, hnone]
          rfl
        rw [hstep]
      · exfalso
        simp only [List.cons_append, List.nil_append] at hwh
        rw [if_neg (by simp [hwh])] at hsp
        have hP3 : ∀ b ∈ ([101, 105, 103, 104, 116, 58, 32, 57, 57] : List Nat), b ≠ 10 := by
          decide
        rw [show (((119 : Nat) == 10)) = false from by decide] at hsp
        rw [wlSplit_false_append _ suf hP3, hnone] at hsp
        simp at hsp
  | cons a pre' ih =>
    intro ls suf d hall hne h99 hsp hnone
    simp only [List.cons_append] at hsp ⊢
    rw [wlSplit_cons] at hsp
    by_cases hc : (ls && wlHere (a :: (pre' ++ ((bs "weight: " ++ DEFAULT_WEIGHT) ++ suf)))) = true
    · rw [if_pos hc] at hsp
      simp at hsp
    · rw [if_neg hc] at hsp
      cases hr : wlSplit (a == 10) (pre' ++ ((bs "weight: " ++ DEFAULT_WEIGHT) ++ suf)) with
      | none =>
        rw [hr] at hsp
        simp at hsp
      | some q =>
        obtain ⟨p1, s1⟩ := q
        rw [hr] at hsp
        simp only [Option.some.injEq, Prod.mk.injEq, List.cons.injEq] at hsp
        obtain ⟨⟨_, hp1⟩, hs1⟩ := hsp
        rw [hp1, hs1] at hr
        have IH := ih (a == 10) suf d hall hne h99 hr hnone
        rw [wlSplit_cons]
        have hcnew : ¬ (ls && wlHere (a :: (pre' ++ (bs "weight: " ++ (d ++ suf))))) = true := by
          cases ls with
          | false => simp
          | true =>
            simp only [Bool.true_and] at hc ⊢
            by_cases hlen : 10 ≤ (a :: pre').length
            · have hh1 : ((bs "weight: " ++ DEFAULT_WEIGHT) ++ suf).head? = some 119 := by
                rw [show bs "weight: " ++ DEFAULT_WEIGHT
                    = 119 :: [101, 105, 103, 104, 116, 58, 32, 57, 57] from by decide]
                rfl
              have hh2 : (bs "weight: " ++ (d ++ suf)).head? = some 119 := by
                rw [show bs "weight: " = 119 :: [101, 105, 103, 104, 116, 58, 32] from by decide]
                rfl
              have hn1 : (bs "weight: " ++ DEFAULT_WEIGHT) ++ suf ≠ [] := by
                rw [show bs "weight: " ++ DEFAULT_WEIGHT
                    = 119 :: [101, 105, 103, 104, 116, 58, 32, 57, 57] from by decide]
                simp
              have hn2 : bs "weight: " ++ (d ++ suf) ≠ [] := by
                rw [show bs "weight: " = 119 :: [101, 105, 103, 104, 116, 58, 32] from by decide]
                simp
              have hext := wlHere_ext (a :: pre') ((bs "weight: " ++ DEFAULT_WEIGHT) ++ suf)
                (bs "weight: " ++ (d ++ suf)) hlen (by rw [hh1, hh2])
                (by constructor <;> intro hx <;> [exact absurd hx hn1; exact absurd hx hn2])
              simp only [List.cons_append] at hext
              rw [← hext]
              exact hc
            · have h9 : (a :: pre').length ≤ 9 := by omega
              have h1 : 1 ≤ (a :: pre').length := by simp
              have hshort := wlHere_short (a :: pre')
                ([101, 105, 103, 104, 116, 58, 32] ++ (d ++ suf)) h1 h9
              rw [List.cons_append] at hshort
              rw [show bs "weight: " = 119 :: [101, 105, 103, 104, 116, 58, 32] from by decide]
              simp only [List.cons_append, List.nil_append] at hshort ⊢
              simp [hshort]
        rw [if_neg hcnew, IH]

/-- C9: on a document whose single default-weight placeholder line was
replaced by a real weight (`w ≠ 99`), a second `set_page_weight` run finds
no placeholder and leaves the bytes and the exit status unchanged: the
first run rewrites the placeholder, the rewritten content has no
`^weight: 99$` line left, and re-running is a no-op. -/
theorem C9_weighted_rerun_unchanged (p p2 c pre suf : List Nat) (w s w2 s2 : Nat)
    (hsp : wlSplit true c = some (pre, suf))
    (hone : wlSplit false suf = none)
    (hw : w ≠ 99) :
    set_page_weight p (some c) w s
        = (some (pre ++ bs "weight: " ++ natDigits w ++ suf), s)
    ∧ wlSplit true (pre ++ bs "weight: " ++ natDigits w ++ suf) = none
    ∧ set_page_weight p2 (some (pre ++ bs "weight: " ++ natDigits w ++ suf)) w2 s2
        = (some (pre ++ bs "weight: " ++ natDigits w ++ suf), s2) := by
  have hshape := wlSplit_shape c true pre suf hsp
  have hnone : wlSplit true (pre ++ bs "weight: " ++ natDigits w ++ suf) = none := by
    have h := wlSplit_after_replace pre true suf (natDigits w) (natDigits_all w)
      (natDigits_ne_nil w) (natDigits_ne99 w hw) (by rw [← hshape]; exact hsp) hone
    simpa [List.append_assoc] using h
  refine ⟨by simp [set_page_weight, hsp], hnone, ?_⟩
  have hnone2 := hnone
  simp only [List.append_assoc] at hnone2
  simp [set_page_weight, hnone2]

/-- C9 (witness): the rerun theorem applied to a small weighted header. -/
theorem C9_weighted_rerun_unchanged_witness :
    wlSplit true (bs "---\nweight: 99\n---\n") = some (bs "---\n", bs "\n---\n")
    ∧ wlSplit false (bs "\n---\n") = none
    ∧ (3 : Nat) ≠ 99
    ∧ (set_page_weight (bs "x/_index.md") (some (bs "---\nweight: 99\n---\n")) 3 0
        = (some (bs "---\n" ++ bs "weight: " ++ natDigits 3 ++ bs "\n---\n"), 0)
      ∧ wlSplit true (bs "---\n" ++ bs "weight: " ++ natDigits 3 ++ bs "\n---\n") = none
      ∧ set_page_weight (bs "y/_index.md")
          (some (bs "---\n" ++ bs "weight: " ++ natDigits 3 ++ bs "\n---\n")) 7 5
        = (some (bs "---\n" ++ bs "weight: " ++ natDigits 3 ++ bs "\n---\n"), 5)) :=
  ⟨by decide, by decide, by decide,
    C9_weighted_rerun_unchanged (bs "x/_index.md") (bs "y/_index.md")
      (bs "---\nweight: 99\n---\n") (bs "---\n") (bs "\n---\n") 3 0 7 5
      (by decide) (by decide) (by decide)⟩

/-! ## C6: title extraction of Content Repair -/

theorem scanReplaceGo_id (f : List Nat → Option (List Nat × Nat))
    (hf : ∀ (a : Nat) (l : List Nat), a ≠ 91 → f (a :: l) = none) :
    ∀ c : List Nat, ¬ 91 ∈ c → scanReplaceGo f c 0 = c := by
  intro c
  induction c with
  | nil => intro _; rfl
  | cons a l ih =>
    intro h
    have ha : a ≠ 91 := fun he => h (he ▸ List.mem_cons_self _ _)
    simp only [scanReplaceGo, hf a l ha]
    exact congrArg (a :: ·) (ih (fun hm => h (List.mem_cons_of_mem _ hm)))

theorem resMatchAt_ne (a : Nat) (l : List Nat) (h : a ≠ 91) :
    resMatchAt (a :: l) = none := by
  simp [resMatchAt, h]

theorem mdMatchAt_ne (a : Nat) (l : List Nat) (h : a ≠ 91) :
    mdMatchAt (a :: l) = none := by
  simp [mdMatchAt, h]

theorem takeWhile_all_stop (p : Nat → Bool) (c : Nat) (rest : List Nat)
    (hc : p c = false) :
    ∀ t : List Nat, (∀ b ∈ t, p b = true) →
      (t ++ c :: rest).takeWhile p = t := by
  intro t
  induction t with
  | nil => intro _; simp [List.takeWhile, hc]
  | cons x xs ih =>
    intro h
    simp only [List.cons_append, List.takeWhile, List.append_eq,
      h x (List.mem_cons_self _ _)]
    rw [ih (fun b hb => h b (List.mem_cons_of_mem _ hb))]

theorem h1Split_heading (t body : List Nat) (h10 : ¬ 10 ∈ t) (hne : t ≠ [])
    (hsp : t.head? ≠ some 32) :
    h1Split (bs "# " ++ (t ++ 10 :: body)) = some (t, body) := by
  have hshape : bs "# " ++ (t ++ 10 :: body) = 35 :: (32 :: (t ++ 10 :: body)) := by
    rw [show bs "# " = [35, 32] from by decide]
    simp
  rw [hshape]
  simp only [h1Split]
  have hline : (32 :: (t ++ 10 :: body)).takeWhile (fun b => b ≠ 10) = 32 :: t := by
    simp only [List.takeWhile]
    rw [show (decide ((32 : Nat) ≠ 10)) = true from by decide]
    simp only []
    rw [takeWhile_all_stop _ 10 body (by simp) t
      (fun b hb => by simp; exact fun he => h10 (he ▸ hb))]
  rw [hline]
  have hsp2 : (32 :: t).takeWhile (fun b => b = 32) = [32] := by
    cases t with
    | nil => exact absurd rfl hne
    | cons c t' =>
      have hc : ¬ c = 32 := fun he => hsp (by simp [he])
      simp [List.takeWhile, hc]
  rw [hsp2]
  have hlen1 : ([32] : List Nat).length = 1 := rfl
  rw [hlen1]
  have hlt : 1 < (32 :: t).length := by
    cases t with
    | nil => exact absurd rfl hne
    | cons c t' => simp
  rw [if_neg (by omega), if_pos hlt]
  have hdrop : (32 :: (t ++ 10 :: body)).drop (32 :: t).length = 10 :: body := by
    simp only [List.length_cons, List.drop_succ_cons]
    exact List.drop_left t (10 :: body)
  rw [hdrop]
  simp

/-- C6: `repair_content` extracts a leading level-1 heading only when it is
present at the very start: on `b"# " ++ t ++ b"\n" ++ body` (with `t` a
non-empty newline-free title not starting with a space) the emitted
header's title is `t` and the heading line with its terminator is gone
from the emitted body, which is the transformed `body`; when the heading
pattern does not match, the title falls back to the source file's basename
with the `.md` extension stripped. -/
theorem C6_title_extraction (t body noHead src : List Nat) (rdn : List (List Nat))
    (h10 : ¬ 10 ∈ t) (hne : t ≠ []) (hsp : t.head? ≠ some 32)
    (hnh : h1Split noHead = none) :
    repair_content (bs "# " ++ t ++ bs "\n" ++ body) src rdn
      = (mkHeader t (docSlug (dropSuf (bs ".md") (basenameB src)))
          (bodyPipeline (dropSuf (bs ".md") (basenameB src)) rdn body).2
         ++ (bodyPipeline (dropSuf (bs ".md") (basenameB src)) rdn body).1,
        (bodyPipeline (dropSuf (bs ".md") (basenameB src)) rdn body).2)
    ∧ repair_content noHead src rdn
      = (mkHeader (dropSuf (bs ".md") (basenameB src))
          (docSlug (dropSuf (bs ".md") (basenameB src)))
          (bodyPipeline (dropSuf (bs ".md") (basenameB src)) rdn noHead).2
         ++ (bodyPipeline (dropSuf (bs ".md") (basenameB src)) rdn noHead).1,
        (bodyPipeline (dropSuf (bs ".md") (basenameB src)) rdn noHead).2) := by
  constructor
  · have hh := h1Split_heading t body h10 hne hsp
    have hassoc : bs "# " ++ t ++ bs "\n" ++ body = bs "# " ++ (t ++ 10 :: body) := by
      rw [show bs "\n" = [10] from by decide]
      simp
    rw [hassoc]
    simp only [repair_content, hh]
  · simp only [repair_content, hnh]

/-- C6 (witness): the title-extraction theorem applied at
`b"# Hello World\nrest"` and at the heading-less `b"plain"`. -/
theorem C6_title_extraction_witness :
    ¬ 10 ∈ bs "Hello World"
    ∧ bs "Hello World" ≠ []
    ∧ (bs "Hello World").head? ≠ some 32
    ∧ h1Split (bs "plain") = none
    ∧ (repair_content (bs "# " ++ bs "Hello World" ++ bs "\n" ++ bs "rest") (bs "d/p.md") []
        = (mkHeader (bs "Hello World") (docSlug (dropSuf (bs ".md") (basenameB (bs "d/p.md"))))
            (bodyPipeline (dropSuf (bs ".md") (basenameB (bs "d/p.md"))) [] (bs "rest")).2
           ++ (bodyPipeline (dropSuf (bs ".md") (basenameB (bs "d/p.md"))) [] (bs "rest")).1,
          (bodyPipeline (dropSuf (bs ".md") (basenameB (bs "d/p.md"))) [] (bs "rest")).2)
      ∧ repair_content (bs "plain") (bs "d/p.md") []
        = (mkHeader (dropSuf (bs ".md") (basenameB (bs "d/p.md")))
            (docSlug (dropSuf (bs ".md") (basenameB (bs "d/p.md"))))
            (bodyPipeline (dropSuf (bs ".md") (basenameB (bs "d/p.md"))) [] (bs "plain")).2
           ++ (bodyPipeline (dropSuf (bs ".md") (basenameB (bs "d/p.md"))) [] (bs "plain")).1,
          (bodyPipeline (dropSuf (bs ".md") (basenameB (bs "d/p.md"))) [] (bs "plain")).2)) :=
  ⟨by decide, by decide, by decide, by decide,
    C6_title_extraction (bs "Hello World") (bs "rest") (bs "plain") (bs "d/p.md") []
      (by decide) (by decide) (by decide) (by decide)⟩

/-! ## C7: crit tag extraction of Content Repair -/

theorem critMatchAt_ne (a : Nat) (l : List Nat) (h : a ≠ 126) :
    critMatchAt (a :: l) = none := by
  cases l with
  | nil => rfl
  | cons b r => simp [critMatchAt, h]

theorem critPassGo_skip : ∀ (P rest : List Nat) (acc : List (List Nat)),
    critPassGo (P ++ rest) P.length acc = critPassGo rest 0 acc := by
  intro P
  induction P with
  | nil => intro rest acc; rfl
  | cons x P ih =>
    intro rest acc
    simp only [List.cons_append, List.length_cons, critPassGo]
    exact ih rest acc

theorem critPassGo_nomatch : ∀ (c : List Nat) (acc : List (List Nat)),
    ¬ 126 ∈ c → critPassGo c 0 acc = (c, acc) := by
  intro c
  induction c with
  | nil => intro acc _; rfl
  | cons a l ih =>
    intro acc h
    have ha : a ≠ 126 := fun he => h (he ▸ List.mem_cons_self _ _)
    simp only [critPassGo, critMatchAt_ne a l ha]
    rw [ih acc (fun hm => h (List.mem_cons_of_mem _ hm))]

theorem critPassGo_pre : ∀ (pre rest : List Nat) (acc : List (List Nat)),
    ¬ 126 ∈ pre →
    critPassGo (pre ++ rest) 0 acc
      = (pre ++ (critPassGo rest 0 acc).1, (critPassGo rest 0 acc).2) := by
  intro pre
  induction pre with
  | nil => intro rest acc _; simp
  | cons a pre' ih =>
    intro rest acc h
    have ha : a ≠ 126 := fun he => h (he ▸ List.mem_cons_self _ _)
    simp only [List.cons_append, critPassGo, critMatchAt_ne a _ ha, List.append_eq]
    rw [ih rest acc (fun hm => h (List.mem_cons_of_mem _ hm))]

theorem critMatchAt_marker (post : List Nat)
    (h32 : post.head? ≠ some 32) (h9 : post.head? ≠ some 9)
    (h10 : post.head? ≠ some 10) :
    critMatchAt (bs "~~crit needs review~~" ++ post)
      = some (bs "crit needs review", 21) := by
  have hshape : bs "~~crit needs review~~" ++ post
      = 126 :: 126 :: ([99, 114, 105, 116, 32, 110, 101, 101, 100, 115, 32,
          114, 101, 118, 105, 101, 119, 126, 126] ++ post) := by
    rw [show bs "~~crit needs review~~"
        = 126 :: 126 :: [99, 114, 105, 116, 32, 110, 101, 101, 100, 115, 32,
            114, 101, 118, 105, 101, 119, 126, 126] from by decide]
    simp
  rw [hshape,
    show bs "crit needs review"
      = [99, 114, 105, 116, 32, 110, 101, 101, 100, 115, 32, 114, 101, 118,
          105, 101, 119] from by decide]
  cases post with
  | nil =>
    rw [List.append_nil]
    decide
  | cons b post' =>
    have hb32 : ¬ b = 32 := fun he => h32 (by simp [he])
    have hb9 : ¬ b = 9 := fun he => h9 (by simp [he])
    have hb10 : ¬ b = 10 := fun he => h10 (by simp [he])
    simp [critMatchAt, List.takeWhile, List.isPrefixOf, isSpTab, headSpTab,
      hb32, hb9, hb10]
    decide

/-- The crit pass on `pre ++ marker ++ post` with tilde-free `pre`/`post`:
the marker is replaced by the crit short-code and the tag is recorded. -/
theorem critPass_marker (pre post : List Nat) (acc : List (List Nat))
    (hpre : ¬ 126 ∈ pre) (hpost : ¬ 126 ∈ post)
    (h32 : post.head? ≠ some 32) (h9 : post.head? ≠ some 9)
    (h10 : post.head? ≠ some 10) :
    critPassGo (pre ++ (bs "~~crit needs review~~" ++ post)) 0 acc
      = (pre ++ (bs "\x7b\x7b< crit \"needs review\" >\x7d\x7d" ++ post),
         if bs "needs review" ∈ acc then acc else acc ++ [bs "needs review"]) := by
  rw [critPassGo_pre pre _ acc hpre]
  have hm := critMatchAt_marker post h32 h9 h10
  have hshape : bs "~~crit needs review~~" ++ post
      = 126 :: ((126 :: [99, 114, 105, 116, 32, 110, 101, 101, 100, 115, 32,
          114, 101, 118, 105, 101, 119, 126, 126]) ++ post) := by
    rw [show bs "~~crit needs review~~"
        = 126 :: 126 :: [99, 114, 105, 116, 32, 110, 101, 101, 100, 115, 32,
            114, 101, 118, 105, 101, 119, 126, 126] from by decide]
    simp
  rw [hshape] at hm ⊢
  simp only [critPassGo, hm]
  have hcaps : selfCaps (scanReplace
      (fun l2 => (resMatchAt l2).map (fun m => (m.1, m.2.2)))
      ((stripWS (bs "crit needs review")).filter (fun b => b ≠ 34 && b ≠ 10)))
      = [bs "needs review"] := by decide
  rw [hcaps]
  simp only [List.foldl_cons, List.foldl_nil, List.map_cons, List.map_nil]
  rw [show List.intercalate [10]
      [bs "\x7b\x7b< crit \"" ++ bs "needs review" ++ bs "\" >\x7d\x7d"]
      = bs "\x7b\x7b< crit \"needs review\" >\x7d\x7d" from by decide]
  simp only [List.nil_append, List.append_eq]
  rw [critPassGo_nomatch post _ hpost]

/-- C7: on content `pre ++ b"~~crit needs review~~" ++ post` (no tildes or
brackets in `pre`/`post`, no leading heading, and `post` not starting with
space, tab or newline so the marker's trailing trim is empty),
`repair_content` returns the tag set `{b"needs review"}` and the emitted
body has the marker replaced by the rendered short-code invocation. -/
theorem C7_crit_extraction (pre post src : List Nat) (rdn : List (List Nat))
    (hp126 : ¬ 126 ∈ pre) (hq126 : ¬ 126 ∈ post)
    (hp91 : ¬ 91 ∈ pre) (hq91 : ¬ 91 ∈ post)
    (hh : h1Split (pre ++ bs "~~crit needs review~~" ++ post) = none)
    (h32 : post.head? ≠ some 32) (h9 : post.head? ≠ some 9)
    (h10 : post.head? ≠ some 10) :
    repair_content (pre ++ bs "~~crit needs review~~" ++ post) src rdn
      = (mkHeader (dropSuf (bs ".md") (basenameB src))
          (docSlug (dropSuf (bs ".md") (basenameB src))) [bs "needs review"]
         ++ (pre ++ (bs "\x7b\x7b< crit \"needs review\" >\x7d\x7d" ++ post)),
        [bs "needs review"]) := by
  have hno91 : ¬ 91 ∈ (pre ++ bs "~~crit needs review~~" ++ post) := by
    intro hm
    rcases List.mem_append.mp hm with hm | hm
    · rcases List.mem_append.mp hm with hm | hm
      · exact hp91 hm
      · simp [bs] at hm
    · exact hq91 hm
  have hres : scanReplace (fun l =>
      (resMatchAt l).map (fun m =>
        (repair_link m.1 m.2.1 (repair_url_part (quoteFromBytes
          (dropSuf (bs ".md") (basenameB src)))) rdn [] false, m.2.2)))
      (pre ++ bs "~~crit needs review~~" ++ post)
      = pre ++ bs "~~crit needs review~~" ++ post :=
    scanReplaceGo_id _ (fun a l ha => by rw [resMatchAt_ne a l ha]; rfl) _ hno91
  have hmd : scanReplace (fun l =>
      (mdMatchAt l).map (fun m =>
        (repair_link m.1 m.2.1 (repair_url_part (quoteFromBytes
          (dropSuf (bs ".md") (basenameB src)))) rdn [] true, m.2.2)))
      (pre ++ bs "~~crit needs review~~" ++ post)
      = pre ++ bs "~~crit needs review~~" ++ post :=
    scanReplaceGo_id _ (fun a l ha => by rw [mdMatchAt_ne a l ha]; rfl) _ hno91
  have hcrit := critPass_marker pre post [] hp126 hq126 h32 h9 h10
  simp only [repair_content, bodyPipeline, hh, hres, hmd]
  rw [show pre ++ bs "~~crit needs review~~" ++ post
      = pre ++ (bs "~~crit needs review~~" ++ post) from by simp]
  rw [hcrit]
  simp

/-- C7 (witness): the crit-extraction theorem applied at
`b"see ~~crit needs review~~!done"`. -/
theorem C7_crit_extraction_witness :
    ¬ 126 ∈ bs "see " ∧ ¬ 126 ∈ bs "!done" ∧ ¬ 91 ∈ bs "see " ∧ ¬ 91 ∈ bs "!done"
    ∧ h1Split (bs "see " ++ bs "~~crit needs review~~" ++ bs "!done") = none
    ∧ (bs "!done").head? ≠ some 32 ∧ (bs "!done").head? ≠ some 9
    ∧ (bs "!done").head? ≠ some 10
    ∧ repair_content (bs "see " ++ bs "~~crit needs review~~" ++ bs "!done")
        (bs "d/p.md") []
      = (mkHeader (dropSuf (bs ".md") (basenameB (bs "d/p.md")))
          (docSlug (dropSuf (bs ".md") (basenameB (bs "d/p.md")))) [bs "needs review"]
         ++ (bs "see " ++ (bs "\x7b\x7b< crit \"needs review\" >\x7d\x7d" ++ bs "!done")),
        [bs "needs review"]) :=
  ⟨by decide, by decide, by decide, by decide, by decide, by decide, by decide,
    by decide,
    C7_crit_extraction (bs "see ") (bs "!done") (bs "d/p.md") []
      (by decide) (by decide) (by decide) (by decide) (by decide) (by decide)
      (by decide) (by decide)⟩

end UnzipNotion
